import Mathlib

/-!
Verification of the quantTradingBot core against its specification.

Python floats are modelled as rationals (`ℚ`), millisecond timestamps as
integers (`ℤ`), and counters as naturals (`ℕ`).  Fallible I/O (broker
adapters, the shared exposure store, journaling) is modelled by passing the
data the I/O would produce as explicit arguments.  Python `dict` payloads
are modelled as structures covering exactly the keys the code reads.
-/

namespace QuantBot

/-! ## Position ledger — `quantbot/risk/position_tracker.py` -/

/-- `PositionInfo` from `position_tracker.py` (the `updated_at` timestamp
string is not modelled; it never feeds back into any computation). -/
structure PositionInfo where
  qty : ℚ := 0
  avg_cost : ℚ := 0
  high_water : ℚ := 0
  low_water : ℚ := 0
  realized_pnl : ℚ := 0
  realized_pnl_net : ℚ := 0
  fee_paid : ℚ := 0
  deriving Repr, DecidableEq, Inhabited

/-- `PositionTracker.apply_fill`, acting on the single symbol's
`PositionInfo`.  Returns the updated position together with
`realized_delta` (the fill's realized-PnL contribution, which the source
also returns in its result dict). -/
def applyFill (p : PositionInfo) (side : String) (filled_qty avg_fill_price : ℚ)
    (fee : ℚ) : PositionInfo × ℚ :=
  let q := filled_qty
  let px := avg_fill_price
  let res : PositionInfo × ℚ :=
    if side = "BUY" then
      if p.qty < 0 then
        -- Cover short: realize PnL on the closed portion.
        let close_qty := min q |p.qty|
        let realized_delta := close_qty * (p.avg_cost - px)
        let remaining_buy := q - close_qty
        let p := { p with qty := p.qty + close_qty }
        let p := if p.qty = 0 then
            { p with avg_cost := 0, high_water := 0, low_water := 0 }
          else p
        let p := if remaining_buy > 0 then
            { p with qty := remaining_buy, avg_cost := px, high_water := px, low_water := px }
          else p
        (p, realized_delta)
      else
        -- Open/add long
        let new_qty := p.qty + q
        let p := if new_qty > 0 then
            { p with avg_cost := if p.qty > 0 then (p.qty * p.avg_cost + q * px) / new_qty else px }
          else p
        let p := { p with qty := new_qty }
        let p := { p with high_water := if p.high_water > 0 then max p.high_water px else px }
        let p := if p.low_water = 0 then { p with low_water := px } else p
        (p, 0)
    else if side = "SELL" then
      if p.qty > 0 then
        -- Reduce/close long: realize PnL on the closed portion.
        let close_qty := min q p.qty
        let realized_delta := close_qty * (px - p.avg_cost)
        let remaining_sell := q - close_qty
        let p := { p with qty := p.qty - close_qty }
        let p := if p.qty = 0 then
            { p with avg_cost := 0, high_water := 0, low_water := 0 }
          else p
        let p := if remaining_sell > 0 then
            { p with qty := -remaining_sell, avg_cost := px, high_water := px, low_water := px }
          else p
        (p, realized_delta)
      else
        -- Open/add short
        let abs_old := |p.qty|
        let abs_new := abs_old + q
        let p := { p with avg_cost := if abs_old > 0 then (abs_old * p.avg_cost + q * px) / abs_new else px }
        let p := { p with qty := p.qty - q }
        let p := { p with low_water := if p.low_water > 0 then min p.low_water px else px }
        let p := if p.high_water = 0 then { p with high_water := px } else p
        (p, 0)
    else (p, 0)
  let p := res.1
  let realized_delta := res.2
  ({ p with fee_paid := p.fee_paid + fee,
            realized_pnl := p.realized_pnl + realized_delta,
            realized_pnl_net := p.realized_pnl_net + (realized_delta - fee) },
   realized_delta)

/-- `PositionTracker.update_mark`, acting on the single symbol's state. -/
def updateMark (p : PositionInfo) (last_price : ℚ) : PositionInfo :=
  if p.qty > 0 then
    { p with high_water := if p.high_water > 0 then max p.high_water last_price else last_price }
  else if p.qty < 0 then
    { p with low_water := if p.low_water > 0 then min p.low_water last_price else last_price }
  else p

/-- The all-zero `PositionInfo()` a fresh symbol starts from. -/
def emptyPos : PositionInfo := {}

lemma sell_ne_buy : ("SELL" : String) ≠ "BUY" := by decide

/-- C3: a SELL fill on a long position realizes
`close_qty · (px − avg_cost)` with `close_qty = min(fill_qty, qty)`; if the
fill exceeds the position it flips to a short of the remainder at cost
`px`; and concretely BUY 2 @ 100 from flat followed by SELL 3 @ 110 yields
realized delta 20 and the position (qty = −1, avg_cost = 110). -/
theorem sell_while_long_realizes_and_flips
    (p : PositionInfo) (q px fee : ℚ) (hq : 0 < p.qty) :
    ((applyFill p "SELL" q px fee).2 = min q p.qty * (px - p.avg_cost)
      ∧ (applyFill p "SELL" q px fee).1.realized_pnl
          = p.realized_pnl + min q p.qty * (px - p.avg_cost)
      ∧ (p.qty < q →
          (applyFill p "SELL" q px fee).1.qty = -(q - p.qty)
          ∧ (applyFill p "SELL" q px fee).1.avg_cost = px))
    ∧ ((applyFill (applyFill emptyPos "BUY" 2 100 0).1 "SELL" 3 110 0).2 = 20
      ∧ (applyFill (applyFill emptyPos "BUY" 2 100 0).1 "SELL" 3 110 0).1.qty = -1
      ∧ (applyFill (applyFill emptyPos "BUY" 2 100 0).1 "SELL" 3 110 0).1.avg_cost = 110) := by
  constructor
  · refine ⟨?_, ?_, ?_⟩
    · simp [applyFill, hq, sell_ne_buy]
    · simp [applyFill, hq, sell_ne_buy, apply_ite PositionInfo.realized_pnl]
    · intro hlt
      have hmin : min q p.qty = p.qty := min_eq_right hlt.le
      have h0 : p.qty - min q p.qty = 0 := by rw [hmin]; ring
      have hrem : 0 < q - min q p.qty := by rw [hmin]; linarith
      constructor
      · simp [applyFill, hq, sell_ne_buy, h0, hrem, hmin, hlt]
      · simp [applyFill, hq, sell_ne_buy, h0, hrem, hmin, hlt]
  · refine ⟨?_, ?_, ?_⟩ <;> norm_num [applyFill, emptyPos, sell_ne_buy]

/-- Witness for `sell_while_long_realizes_and_flips` at a long position of
qty 2, avg cost 100, selling 3 at 110. -/
theorem sell_while_long_realizes_and_flips_witness :
    (applyFill { qty := 2, avg_cost := 100 } "SELL" 3 110 0).2
        = min 3 (2 : ℚ) * (110 - 100)
    ∧ (applyFill { qty := 2, avg_cost := 100 } "SELL" 3 110 0).1.qty = -(3 - 2) := by
  have h := sell_while_long_realizes_and_flips
      { qty := 2, avg_cost := 100 } 3 110 0 (by norm_num)
  exact ⟨h.1.1, ((h.1.2.2 (by norm_num)).1).trans (by norm_num)⟩

/-- A mutating ledger operation: `apply_fill(side, qty, px, fee)` or
`update_mark(px)`. -/
inductive LedgerOp
  | fill (side : String) (qty px fee : ℚ)
  | mark (px : ℚ)

def ledgerStep (p : PositionInfo) : LedgerOp → PositionInfo
  | .fill side q px fee => (applyFill p side q px fee).1
  | .mark px => updateMark p px

def ledgerRun (p : PositionInfo) : List LedgerOp → PositionInfo
  | [] => p
  | op :: ops => ledgerRun (ledgerStep p op) ops

/-- Operations with positive quantities and prices (the inputs live
trading produces: venues only report strictly positive fill quantities,
fill prices and mark prices). -/
def WfLedgerOp : LedgerOp → Prop
  | .fill _ q px _ => 0 < q ∧ 0 < px
  | .mark px => 0 < px

/-- The ledger invariant: a flat position is fully zeroed, and a non-flat
position has strictly positive watermarks. -/
def LedgerInv (p : PositionInfo) : Prop :=
  (p.qty = 0 → p.avg_cost = 0 ∧ p.high_water = 0 ∧ p.low_water = 0)
  ∧ (p.qty ≠ 0 → 0 < p.high_water ∧ 0 < p.low_water)

lemma ledgerInv_emptyPos : LedgerInv emptyPos := by
  constructor <;> intro h <;> simp [emptyPos] at h ⊢

lemma ledgerInv_updateMark (p : PositionInfo) (lp : ℚ) (hlp : 0 < lp)
    (hI : LedgerInv p) : LedgerInv (updateMark p lp) := by
  obtain ⟨hz, hnz⟩ := hI
  unfold updateMark
  split_ifs with h1 h2 h3 h4
  · exact ⟨fun h0 => absurd h0 (ne_of_gt h1),
      fun _ => ⟨lt_of_lt_of_le h2 (le_max_left _ _), (hnz (ne_of_gt h1)).2⟩⟩
  · exact ⟨fun h0 => absurd h0 (ne_of_gt h1),
      fun _ => ⟨hlp, (hnz (ne_of_gt h1)).2⟩⟩
  · exact ⟨fun h0 => absurd h0 (ne_of_lt h3),
      fun _ => ⟨(hnz (ne_of_lt h3)).1, lt_min h4 hlp⟩⟩
  · exact ⟨fun h0 => absurd h0 (ne_of_lt h3),
      fun _ => ⟨(hnz (ne_of_lt h3)).1, hlp⟩⟩
  · exact ⟨hz, hnz⟩

lemma ledgerInv_applyFill (p : PositionInfo) (side : String) (q px fee : ℚ)
    (hq : 0 < q) (hpx : 0 < px) (hI : LedgerInv p) :
    LedgerInv (applyFill p side q px fee).1 := by
  obtain ⟨hz, hnz⟩ := hI
  simp only [applyFill]
  by_cases hb : side = "BUY"
  · simp only [hb, if_pos]
    by_cases hneg : p.qty < 0
    · -- cover short
      simp only [if_pos hneg, abs_of_neg hneg]
      rcases le_or_lt q (-p.qty) with hle | hgt
      · simp only [min_eq_left hle]
        by_cases hzero : p.qty + q = 0
        · have hrem : ¬ (0 < q - q) := by norm_num
          simp only [if_pos hzero, if_neg hrem]
          exact ⟨fun _ => ⟨rfl, rfl, rfl⟩, fun hcon => absurd hzero hcon⟩
        · have hrem : ¬ (0 < q - q) := by norm_num
          simp only [if_neg hzero, if_neg hrem]
          exact ⟨fun h0 => absurd h0 hzero, fun _ => hnz (ne_of_lt hneg)⟩
      · have hmin : min q (-p.qty) = -p.qty := min_eq_right hgt.le
        have hzero : p.qty + -p.qty = 0 := by ring
        simp only [hmin, if_pos hzero]
        by_cases hrem : 0 < q - -p.qty
        · simp only [if_pos hrem]
          exact ⟨fun h0 => absurd h0 (ne_of_gt hrem), fun _ => ⟨hpx, hpx⟩⟩
        · simp only [if_neg hrem]
          exact ⟨fun _ => ⟨rfl, rfl, rfl⟩, fun hcon => absurd hzero hcon⟩
    · -- open/add long
      simp only [if_neg hneg]
      have hqty0 : 0 ≤ p.qty := not_lt.mp hneg
      have hnew : 0 < p.qty + q := by linarith
      simp only [if_pos hnew]
      have hhw_pos : 0 < (if 0 < p.high_water then max p.high_water px else px) := by
        split_ifs with hhw
        · exact lt_of_lt_of_le hhw (le_max_left _ _)
        · exact hpx
      by_cases hlw : p.low_water = 0
      · simp only [if_pos hlw]
        exact ⟨fun h0 => absurd h0 (ne_of_gt hnew),
          fun _ => ⟨by simpa using hhw_pos, hpx⟩⟩
      · simp only [if_neg hlw]
        refine ⟨fun h0 => absurd h0 (ne_of_gt hnew),
          fun _ => ⟨by simpa using hhw_pos, ?_⟩⟩
        rcases eq_or_ne p.qty 0 with hq0 | hq0
        · exact absurd (hz hq0).2.2 hlw
        · exact (hnz hq0).2
  · simp only [if_neg hb]
    by_cases hs : side = "SELL"
    · simp only [hs, if_pos]
      by_cases hpos : 0 < p.qty
      · -- reduce/close long
        simp only [if_pos hpos]
        rcases le_or_lt q p.qty with hle | hgt
        · simp only [min_eq_left hle]
          by_cases hzero : p.qty - q = 0
          · have hrem : ¬ (0 < q - q) := by norm_num
            simp only [if_pos hzero, if_neg hrem]
            exact ⟨fun _ => ⟨rfl, rfl, rfl⟩, fun hcon => absurd hzero hcon⟩
          · have hrem : ¬ (0 < q - q) := by norm_num
            simp only [if_neg hzero, if_neg hrem]
            exact ⟨fun h0 => absurd h0 hzero, fun _ => hnz (ne_of_gt hpos)⟩
        · have hmin : min q p.qty = p.qty := min_eq_right hgt.le
          have hzero : p.qty - p.qty = 0 := by ring
          simp only [hmin, if_pos hzero]
          by_cases hrem : 0 < q - p.qty
          · simp only [if_pos hrem]
            refine ⟨fun h0 => ?_, fun _ => ⟨hpx, hpx⟩⟩
            exact absurd (neg_eq_zero.mp h0) (ne_of_gt hrem)
          · simp only [if_neg hrem]
            exact ⟨fun _ => ⟨rfl, rfl, rfl⟩, fun hcon => absurd hzero hcon⟩
      · -- open/add short
        simp only [if_neg hpos]
        have hqty0 : p.qty ≤ 0 := not_lt.mp hpos
        have hqlt : p.qty - q < 0 := by linarith
        have hlw_pos : 0 < (if 0 < p.low_water then min p.low_water px else px) := by
          split_ifs with hlw
          · exact lt_min hlw hpx
          · exact hpx
        by_cases hhw : p.high_water = 0
        · simp only [if_pos hhw]
          exact ⟨fun h0 => absurd h0 (ne_of_lt hqlt),
            fun _ => ⟨hpx, by simpa using hlw_pos⟩⟩
        · simp only [if_neg hhw]
          refine ⟨fun h0 => absurd h0 (ne_of_lt hqlt),
            fun _ => ⟨?_, by simpa using hlw_pos⟩⟩
          rcases eq_or_ne p.qty 0 with hq0 | hq0
          · exact absurd (hz hq0).2.1 hhw
          · exact (hnz hq0).1
    · simp only [if_neg hs]
      exact ⟨hz, hnz⟩

lemma hw_mono_applyFill (p : PositionInfo) (side : String) (q px fee : ℚ)
    (hq : 0 < q) (hpx : 0 < px) (h1 : 0 < p.qty)
    (h2 : 0 < (applyFill p side q px fee).1.qty) :
    p.high_water ≤ (applyFill p side q px fee).1.high_water := by
  simp only [applyFill] at h2 ⊢
  by_cases hb : side = "BUY"
  · have hneg : ¬ p.qty < 0 := by linarith
    simp only [hb, if_pos, if_neg hneg] at h2 ⊢
    have hnew : 0 < p.qty + q := by linarith
    simp only [if_pos hnew] at h2 ⊢
    by_cases hlw : p.low_water = 0
    · simp only [if_pos hlw] at h2 ⊢
      split_ifs with hhw
      · exact le_max_left _ _
      · linarith [not_lt.mp hhw]
    · simp only [if_neg hlw] at h2 ⊢
      split_ifs with hhw
      · exact le_max_left _ _
      · linarith [not_lt.mp hhw]
  · simp only [if_neg hb] at h2 ⊢
    by_cases hs : side = "SELL"
    · simp only [hs, if_pos, if_pos h1] at h2 ⊢
      rcases le_or_lt q p.qty with hle | hgt
      · simp only [min_eq_left hle] at h2 ⊢
        by_cases hzero : p.qty - q = 0
        · have hrem : ¬ (0 < q - q) := by norm_num
          simp only [if_pos hzero, if_neg hrem] at h2 ⊢
          exact absurd h2 (by linarith)
        · have hrem : ¬ (0 < q - q) := by norm_num
          simp only [if_neg hzero, if_neg hrem] at h2 ⊢
          exact le_refl _
      · have hmin : min q p.qty = p.qty := min_eq_right hgt.le
        have hzero : p.qty - p.qty = 0 := by ring
        have hrem : 0 < q - p.qty := by linarith
        simp only [hmin, if_pos hzero, if_pos hrem] at h2 ⊢
        exact absurd h2 (by linarith)
    · simp only [if_neg hs] at h2 ⊢
      exact le_refl _

lemma lw_anti_applyFill (p : PositionInfo) (side : String) (q px fee : ℚ)
    (hq : 0 < q) (hpx : 0 < px) (hI : LedgerInv p) (h1 : p.qty < 0)
    (h2 : (applyFill p side q px fee).1.qty < 0) :
    (applyFill p side q px fee).1.low_water ≤ p.low_water := by
  obtain ⟨hz, hnz⟩ := hI
  simp only [applyFill] at h2 ⊢
  by_cases hb : side = "BUY"
  · simp only [hb, if_pos, if_pos h1, abs_of_neg h1] at h2 ⊢
    rcases le_or_lt q (-p.qty) with hle | hgt
    · simp only [min_eq_left hle] at h2 ⊢
      by_cases hzero : p.qty + q = 0
      · have hrem : ¬ (0 < q - q) := by norm_num
        simp only [if_pos hzero, if_neg hrem] at h2 ⊢
        exact absurd h2 (by linarith)
      · have hrem : ¬ (0 < q - q) := by norm_num
        simp only [if_neg hzero, if_neg hrem] at h2 ⊢
        exact le_refl _
    · have hmin : min q (-p.qty) = -p.qty := min_eq_right hgt.le
      have hzero : p.qty + -p.qty = 0 := by ring
      have hrem : 0 < q - -p.qty := by linarith
      simp only [hmin, if_pos hzero, if_pos hrem] at h2 ⊢
      exact absurd h2 (by linarith)
  · simp only [if_neg hb] at h2 ⊢
    by_cases hs : side = "SELL"
    · have hpos : ¬ 0 < p.qty := by linarith
      simp only [hs, if_pos, if_neg hpos] at h2 ⊢
      have hlw : 0 < p.low_water := (hnz (ne_of_lt h1)).2
      by_cases hhw : p.high_water = 0
      · simp only [if_pos hhw, if_pos hlw]
        exact min_le_left _ _
      · simp only [if_neg hhw, if_pos hlw]
        exact min_le_left _ _
    · simp only [if_neg hs] at h2 ⊢
      exact le_refl _

lemma hw_mono_updateMark (p : PositionInfo) (lp : ℚ) (hlp : 0 < lp)
    (h1 : 0 < p.qty) : p.high_water ≤ (updateMark p lp).high_water := by
  simp only [updateMark, if_pos h1]
  split_ifs with hhw
  · exact le_max_left _ _
  · linarith [not_lt.mp hhw]

lemma lw_anti_updateMark (p : PositionInfo) (lp : ℚ) (hlp : 0 < lp)
    (hI : LedgerInv p) (h1 : p.qty < 0) :
    (updateMark p lp).low_water ≤ p.low_water := by
  have hng : ¬ 0 < p.qty := by linarith
  simp only [updateMark, if_neg hng, if_pos h1]
  have hlw : 0 < p.low_water := (hI.2 (ne_of_lt h1)).2
  simp only [if_pos hlw]
  exact min_le_left _ _

lemma ledgerInv_step (p : PositionInfo) (op : LedgerOp) (hWf : WfLedgerOp op)
    (hI : LedgerInv p) : LedgerInv (ledgerStep p op) := by
  cases op with
  | fill side q px fee => exact ledgerInv_applyFill p side q px fee hWf.1 hWf.2 hI
  | mark px => exact ledgerInv_updateMark p px hWf hI

lemma ledgerInv_run (ops : List LedgerOp) :
    ∀ p : PositionInfo, (∀ op ∈ ops, WfLedgerOp op) → LedgerInv p →
      LedgerInv (ledgerRun p ops) := by
  induction ops with
  | nil => intro p _ hI; exact hI
  | cons op ops ih =>
      intro p h hI
      exact ih _ (fun o ho => h o (List.mem_cons_of_mem _ ho))
        (ledgerInv_step p op (h op (List.mem_cons_self op ops)) hI)

/-- C8 counterexample: the invariant as stated fails for a zero-quantity
fill — `apply_fill("SELL", 0, 100)` from an empty ledger leaves `qty = 0`
but sets `avg_cost = 100` (and both watermarks to 100), because the
short-open branch runs with `abs_old = 0` and unconditionally assigns
`avg_cost = px`. -/
theorem position_flat_invariant_cex :
    (ledgerStep emptyPos (.fill "SELL" 0 100 0)).qty = 0
    ∧ (ledgerStep emptyPos (.fill "SELL" 0 100 0)).avg_cost = 100 := by
  norm_num [ledgerStep, applyFill, emptyPos, sell_ne_buy]

/-- C8 (amended): for sequences of fills with positive quantity and price
and marks with positive price, every reachable state with `qty = 0` has
`avg_cost = high_water = low_water = 0`, and one more well-formed step
keeps `high_water` non-decreasing while the position stays long and
`low_water` non-increasing while it stays short. -/
theorem position_ledger_invariants (ops : List LedgerOp)
    (h : ∀ op ∈ ops, WfLedgerOp op) :
    ((ledgerRun emptyPos ops).qty = 0 →
        (ledgerRun emptyPos ops).avg_cost = 0
        ∧ (ledgerRun emptyPos ops).high_water = 0
        ∧ (ledgerRun emptyPos ops).low_water = 0)
    ∧ ∀ op, WfLedgerOp op →
        (0 < (ledgerRun emptyPos ops).qty →
          0 < (ledgerStep (ledgerRun emptyPos ops) op).qty →
          (ledgerRun emptyPos ops).high_water
            ≤ (ledgerStep (ledgerRun emptyPos ops) op).high_water)
        ∧ ((ledgerRun emptyPos ops).qty < 0 →
          (ledgerStep (ledgerRun emptyPos ops) op).qty < 0 →
          (ledgerStep (ledgerRun emptyPos ops) op).low_water
            ≤ (ledgerRun emptyPos ops).low_water) := by
  have hI : LedgerInv (ledgerRun emptyPos ops) :=
    ledgerInv_run ops emptyPos h ledgerInv_emptyPos
  refine ⟨hI.1, fun op hWf => ⟨?_, ?_⟩⟩
  · intro hpos hpos'
    cases op with
    | fill side q px fee => exact hw_mono_applyFill _ side q px fee hWf.1 hWf.2 hpos hpos'
    | mark px => exact hw_mono_updateMark _ px hWf hpos
  · intro hneg hneg'
    cases op with
    | fill side q px fee => exact lw_anti_applyFill _ side q px fee hWf.1 hWf.2 hI hneg hneg'
    | mark px => exact lw_anti_updateMark _ px hWf hI hneg

/-- Witness for `position_ledger_invariants`: after BUY 1 @ 100 from flat,
a mark at 120 does not decrease the high watermark. -/
theorem position_ledger_invariants_witness :
    (ledgerRun emptyPos [LedgerOp.fill "BUY" 1 100 0]).high_water
      ≤ (ledgerStep (ledgerRun emptyPos [LedgerOp.fill "BUY" 1 100 0])
          (LedgerOp.mark 120)).high_water := by
  have h := position_ledger_invariants [LedgerOp.fill "BUY" 1 100 0]
    (by intro op hop
        rw [List.mem_singleton] at hop
        subst hop
        exact ⟨one_pos, by norm_num⟩)
  exact (h.2 (LedgerOp.mark 120) (by norm_num [WfLedgerOp])).1
    (by norm_num [ledgerRun, ledgerStep, applyFill, emptyPos])
    (by norm_num [ledgerRun, ledgerStep, applyFill, updateMark, emptyPos])

/-! ## Cooldown manager — `quantbot/risk/cooldown.py` -/

/-- Substring test on character lists (models Python's `in` on `str`). -/
def infixB (pat : List Char) : List Char → Bool
  | [] => pat.isEmpty
  | c :: rest => pat.isPrefixOf (c :: rest) || infixB pat rest

/-- `pat in s` for the message heuristics of the failure classifier. -/
def containsSub (s pat : String) : Bool := infixB pat.data s.data

/-- `str.lower()` (character-wise; the messages classified are ASCII). -/
def lowerStr (s : String) : String := ⟨s.data.map Char.toLower⟩

/-- Constructor arguments of `CooldownManager` (all `int(...)`/`float(...)`
coerced in the source; seconds are kept as `ℤ` like the `int` fields). -/
structure CooldownConfig where
  enabled : Bool := true
  after_exit_fill_sec : ℤ := 2
  after_entry_fill_sec : ℤ := 0
  reject_base_sec : ℤ := 10
  http400_sec : ℤ := 30
  http401_sec : ℤ := 600
  rate_limit_sec : ℤ := 5
  insufficient_margin_sec : ℤ := 180
  min_notional_sec : ℤ := 300
  filter_fail_sec : ℤ := 60
  precision_sec : ℤ := 60
  position_side_sec : ℤ := 600
  reduce_only_sec : ℤ := 60
  trigger_immediate_sec : ℤ := 20
  timestamp_sec : ℤ := 10
  max_open_orders_sec : ℤ := 120
  liquidation_sec : ℤ := 600
  backoff_mult : ℚ := 2
  max_sec : ℤ := 900
  fail_window_sec : ℤ := 180

/-- The extra classification fields `on_entry_failed` merges into the
journaled payload (`category` and the order status; the advisory
`msg`/`code`/`recommend_*` fields are presentation only). -/
structure CooldownMeta where
  category : String
  order_status : String
  deriving Repr, DecidableEq

/-- The payload `_apply_cooldown` journals and stores in `last_payload`
(venue/account/mode tags are configuration echoes, not modelled). -/
structure CooldownPayload where
  ts_ms : ℤ
  reason : String
  cooldown_sec : ℚ
  until_ms : ℤ
  fail_count : ℕ
  meta : Option CooldownMeta := none
  deriving Repr, DecidableEq

/-- `CooldownState` for one symbol. -/
structure CooldownState where
  until_ms : ℤ := 0
  fail_count : ℕ := 0
  last_fail_ms : ℤ := 0
  last_reason : String := ""
  last_payload : Option CooldownPayload := none
  deriving Repr, DecidableEq

/-- The zeroed `CooldownState` `_get` creates for a fresh symbol. -/
def emptyCooldown : CooldownState := {}

/-- `CooldownManager._reset_fail_count_if_stale`. -/
def resetFailCountIfStale (cfg : CooldownConfig) (st : CooldownState) (now : ℤ) :
    CooldownState :=
  if st.fail_count = 0 then st
  else if st.last_fail_ms ≠ 0 ∧ now - st.last_fail_ms > max 1 cfg.fail_window_sec * 1000 then
    { st with fail_count := 0 }
  else st

/-- `CooldownManager._apply_cooldown`.  `int(sec * 1000)` truncates toward
zero; it only runs with `sec > 0`, where truncation is `⌊·⌋`. -/
def applyCooldown (cfg : CooldownConfig) (st : CooldownState) (sec : ℚ)
    (reason : String) (now : ℤ) (fail : Bool) (meta : Option CooldownMeta) :
    CooldownState :=
  if sec ≤ 0 then st
  else
    let untl := now + ⌊sec * 1000⌋
    let st := { st with until_ms := max st.until_ms untl, last_reason := reason }
    let st := if fail then
        let st := resetFailCountIfStale cfg st now
        { st with fail_count := st.fail_count + 1, last_fail_ms := now }
      else st
    let payload : CooldownPayload :=
      { ts_ms := now, reason := st.last_reason, cooldown_sec := sec,
        until_ms := st.until_ms, fail_count := st.fail_count, meta := meta }
    { st with last_payload := some payload }

/-- `CooldownManager.on_exit_filled`. -/
def onExitFilled (cfg : CooldownConfig) (st : CooldownState) (now : ℤ) : CooldownState :=
  if cfg.enabled = false then st
  else if cfg.after_exit_fill_sec > 0 then
    applyCooldown cfg st (cfg.after_exit_fill_sec : ℚ) "EXIT_FILLED" now false none
  else st

/-- `CooldownManager.on_entry_filled`. -/
def onEntryFilled (cfg : CooldownConfig) (st : CooldownState) (now : ℤ) : CooldownState :=
  if cfg.enabled = false then st
  else
    let st := if cfg.after_entry_fill_sec > 0 then
        applyCooldown cfg st (cfg.after_entry_fill_sec : ℚ) "ENTRY_FILLED" now false none
      else st
    { st with fail_count := 0 }

/-- `CooldownManager.allow_entry` (read-only: returns the gate decision). -/
def allowEntry (cfg : CooldownConfig) (st : CooldownState) (now : ℤ) :
    Bool × Option String :=
  if cfg.enabled = false then (true, none)
  else if now < st.until_ms then (false, some "COOLDOWN_ACTIVE")
  else (true, none)

/-- A raw failure payload as `_classify_failure` reads it. -/
inductive FailureRaw
  /-- any payload that is not a dict with `error == "http_error"` -/
  | other
  /-- `{"error": "http_error", "http_status": …, "body": {"code": …, "msg": …}}`.
      `http_status` is `none` when absent or 0 (`int(raw.get("http_status") or 0) or None`);
      `code`/`msg` are `none` when the body is missing, not a dict, lacks the
      key, or (for `code`) holds a non-`int`. -/
  | httpError (http_status : Option ℤ) (code : Option ℤ) (msg : Option String)

/-- `CooldownManager._classify_failure`: returns
`(category, http_status, code, msg)`. -/
def classifyFailure (raw : FailureRaw) : String × Option ℤ × Option ℤ × Option String :=
  match raw with
  | .other => ("reject", none, none, none)
  | .httpError hs code msg =>
    let m := msg.getD ""
    let ml := lowerStr m
    if hs = some 418 ∨ hs = some 429 then ("rate_limit", hs, code, some m)
    else if hs = some 401 ∨ hs = some 403 then ("unauthorized", hs, code, some m)
    else
      let codeCat : Option String :=
        match code with
        | none => none
        | some c =>
          if c = -2015 then some "unauthorized"
          else if c = -2019 then some "insufficient_margin"
          else if c = -4164 then some "min_notional"
          else if c = -1013 ∨ c = -20204 ∨ c = -20130 then some "filter_fail"
          else if c = -1111 then some "precision"
          else if c = -4061 then some "position_side"
          else if c = -2022 ∨ c = -4118 then some "reduce_only"
          else if c = -2021 then some "would_immediately_trigger"
          else if c = -1021 then some "timestamp"
          else if c = -2025 then some "max_open_orders"
          else if c = -2023 then some "liquidation"
          else none
      match codeCat with
      | some cat => (cat, hs, code, some m)
      | none =>
        if containsSub ml "timestamp" || containsSub ml "recvwindow" then
          ("timestamp", hs, code, some m)
        else if containsSub ml "insufficient" && containsSub ml "margin" then
          ("insufficient_margin", hs, code, some m)
        else if containsSub ml "position side" then ("position_side", hs, code, some m)
        else if containsSub ml "reduceonly" then ("reduce_only", hs, code, some m)
        else if containsSub ml "immediately trigger" then
          ("would_immediately_trigger", hs, code, some m)
        else if containsSub ml "notional"
            && (containsSub ml "no smaller" || containsSub ml "minimum") then
          ("min_notional", hs, code, some m)
        else if containsSub ml "filter failure" then ("filter_fail", hs, code, some m)
        else if containsSub ml "precision" then ("precision", hs, code, some m)
        else if hs = some 400 then ("http400", hs, code, some m)
        else ("http_error", hs, code, some m)

/-- The cause-specific `(base seconds, reason)` table of `on_entry_failed`
(source lines 325–377). -/
def causeBaseReason (cfg : CooldownConfig) (cat : String) : ℚ × String :=
  if cat = "rate_limit" then ((cfg.rate_limit_sec : ℚ), "RATE_LIMIT")
  else if cat = "unauthorized" then ((cfg.http401_sec : ℚ), "UNAUTHORIZED")
  else if cat = "insufficient_margin" then ((cfg.insufficient_margin_sec : ℚ), "INSUFFICIENT_MARGIN")
  else if cat = "min_notional" then ((cfg.min_notional_sec : ℚ), "MIN_NOTIONAL")
  else if cat = "filter_fail" then ((cfg.filter_fail_sec : ℚ), "FILTER_FAIL")
  else if cat = "precision" then ((cfg.precision_sec : ℚ), "PRECISION")
  else if cat = "position_side" then ((cfg.position_side_sec : ℚ), "POSITION_SIDE")
  else if cat = "reduce_only" then ((cfg.reduce_only_sec : ℚ), "REDUCE_ONLY_REJECT")
  else if cat = "would_immediately_trigger" then ((cfg.trigger_immediate_sec : ℚ), "WOULD_TRIGGER")
  else if cat = "timestamp" then ((cfg.timestamp_sec : ℚ), "TIMESTAMP")
  else if cat = "max_open_orders" then ((cfg.max_open_orders_sec : ℚ), "MAX_OPEN_ORDERS")
  else if cat = "liquidation" then ((cfg.liquidation_sec : ℚ), "LIQUIDATION")
  else if cat = "http400" then ((cfg.http400_sec : ℚ), "HTTP_400")
  else if cat = "http_error" then ((cfg.reject_base_sec : ℚ), "HTTP_ERROR")
  else ((cfg.reject_base_sec : ℚ), "ENTRY_REJECTED")

/-- The body of `on_entry_failed` as written at `cooldown.py:315-386`
(see `cooldown_until_ms_never_decreases` for the operations actually
reachable on `CooldownManager`; this body is mis-indented into dead code
in the source — the behaviour below is what those lines compute). -/
def onEntryFailedBody (cfg : CooldownConfig) (st : CooldownState) (now : ℤ)
    (status : String) (raw : FailureRaw) : CooldownState :=
  if cfg.enabled = false then st
  else
    let st := resetFailCountIfStale cfg st now
    let next_fail_count := st.fail_count + 1
    let cls := classifyFailure raw
    let br := causeBaseReason cfg cls.1
    let mult := max 1 cfg.backoff_mult
    let sec := min (br.1 * mult ^ (next_fail_count - 1)) ((cfg.max_sec : ℚ))
    applyCooldown cfg st sec br.2 now true (some ⟨cls.1, status⟩)

/-- The operations defined on `CooldownManager` (for the `until_ms`
monotonicity invariant).  `allow_entry` and `snapshot` only read the
per-symbol state. -/
inductive CooldownOp
  | applyCd (sec : ℚ) (reason : String) (now : ℤ) (fail : Bool)
  | exitFilled (now : ℤ)
  | entryFilled (now : ℤ)
  | allowEntryQ (now : ℤ)
  | snapshotQ (now : ℤ)

def cooldownStep (cfg : CooldownConfig) (st : CooldownState) : CooldownOp → CooldownState
  | .applyCd sec reason now fail => applyCooldown cfg st sec reason now fail none
  | .exitFilled now => onExitFilled cfg st now
  | .entryFilled now => onEntryFilled cfg st now
  | .allowEntryQ _ => st
  | .snapshotQ _ => st

lemma applyCooldown_until (cfg : CooldownConfig) (st : CooldownState) (sec : ℚ)
    (reason : String) (now : ℤ) (fail : Bool) (meta : Option CooldownMeta) :
    (sec ≤ 0 → applyCooldown cfg st sec reason now fail meta = st)
    ∧ (0 < sec → (applyCooldown cfg st sec reason now fail meta).until_ms
        = max st.until_ms (now + ⌊sec * 1000⌋)) := by
  constructor
  · intro h
    simp only [applyCooldown, if_pos h]
  · intro h
    have h' : ¬ sec ≤ 0 := not_le.mpr h
    simp only [applyCooldown, if_neg h']
    cases fail <;> simp only [resetFailCountIfStale] <;> split_ifs <;> rfl

lemma applyCooldown_until_mono (cfg : CooldownConfig) (st : CooldownState) (sec : ℚ)
    (reason : String) (now : ℤ) (fail : Bool) (meta : Option CooldownMeta) :
    st.until_ms ≤ (applyCooldown cfg st sec reason now fail meta).until_ms := by
  rcases le_or_lt sec 0 with h | h
  · rw [(applyCooldown_until cfg st sec reason now fail meta).1 h]
  · rw [(applyCooldown_until cfg st sec reason now fail meta).2 h]
    exact le_max_left _ _

/-- C9: every operation defined on `CooldownManager` leaves the symbol's
`until_ms` unchanged or raises it to `max(until_ms, now + sec·1000)`;
in particular `until_ms` never decreases, and a requested cooldown of
`sec ≤ 0` is a no-op. -/
theorem cooldown_until_ms_never_decreases (cfg : CooldownConfig)
    (st : CooldownState) (op : CooldownOp) :
    st.until_ms ≤ (cooldownStep cfg st op).until_ms
    ∧ (∀ sec reason now fail, sec ≤ 0 →
        cooldownStep cfg st (.applyCd sec reason now fail) = st)
    ∧ (∀ sec reason now fail, 0 < sec →
        (cooldownStep cfg st (.applyCd sec reason now fail)).until_ms
          = max st.until_ms (now + ⌊sec * 1000⌋)) := by
  refine ⟨?_, ?_, ?_⟩
  · cases op with
    | applyCd sec reason now fail => exact applyCooldown_until_mono cfg st sec reason now fail none
    | exitFilled now =>
        simp only [cooldownStep, onExitFilled]
        split_ifs
        · exact le_refl _
        · exact applyCooldown_until_mono cfg st _ _ now false none
        · exact le_refl _
    | entryFilled now =>
        simp only [cooldownStep, onEntryFilled]
        split_ifs
        · exact le_refl _
        · exact applyCooldown_until_mono cfg st _ _ now false none
        · exact le_refl _
    | allowEntryQ now => exact le_refl _
    | snapshotQ now => exact le_refl _
  · intro sec reason now fail h
    exact (applyCooldown_until cfg st sec reason now fail none).1 h
  · intro sec reason now fail h
    exact (applyCooldown_until cfg st sec reason now fail none).2 h

/-- Witness for `cooldown_until_ms_never_decreases`: a 5-second cooldown
from the fresh state at `now = 1000` raises `until_ms` to 6000. -/
theorem cooldown_until_ms_never_decreases_witness :
    (cooldownStep {} emptyCooldown (.applyCd 5 "EXIT_FILLED" 1000 false)).until_ms
      = max emptyCooldown.until_ms (1000 + ⌊(5 : ℚ) * 1000⌋) := by
  exact (cooldown_until_ms_never_decreases {} emptyCooldown
    (.applyCd 5 "EXIT_FILLED" 1000 false)).2.2 5 "EXIT_FILLED" 1000 false (by norm_num)

lemma resetFailCountIfStale_eq (cfg : CooldownConfig) (st : CooldownState) (now : ℤ)
    (hwin : 1 ≤ cfg.fail_window_sec)
    (hwf : st.fail_count ≠ 0 → st.last_fail_ms ≠ 0) :
    resetFailCountIfStale cfg st now
      = { st with fail_count :=
            if now - st.last_fail_ms > cfg.fail_window_sec * 1000 then 0
            else st.fail_count } := by
  have hm : max 1 cfg.fail_window_sec = cfg.fail_window_sec := max_eq_right hwin
  unfold resetFailCountIfStale
  rcases st with ⟨u, fc, lf, lr, lp⟩
  simp only at hwf ⊢
  by_cases hfc : fc = 0
  · subst hfc
    simp
  · rw [if_neg hfc, hm]
    by_cases hc : now - lf > cfg.fail_window_sec * 1000
    · have hlf : lf ≠ 0 := hwf hfc
      simp [hc, hlf]
    · simp [hc]

lemma resetFailCountIfStale_noop (cfg : CooldownConfig) (st : CooldownState) (now : ℤ)
    (h : st.fail_count ≠ 0 →
      ¬ (st.last_fail_ms ≠ 0 ∧ now - st.last_fail_ms > max 1 cfg.fail_window_sec * 1000)) :
    resetFailCountIfStale cfg st now = st := by
  unfold resetFailCountIfStale
  by_cases hfc : st.fail_count = 0
  · rw [if_pos hfc]
  · rw [if_neg hfc, if_neg (h hfc)]

/-- C2: with a positive cause base, `backoff_mult ≥ 1`, a positive
`max_sec`, `fail_window_sec ≥ 1` and a state whose `last_fail_ms` is set
whenever `fail_count` is, `on_entry_failed` (as written at
`cooldown.py:315-386`) classifies the failure, decays a stale
`fail_count` to 0, increments it, applies
`min(base · backoff_mult^(fail_count_after − 1), max_sec)` seconds of
cooldown, never shortens `until_ms`, and records the cooldown event. -/
theorem on_entry_failed_backoff (cfg : CooldownConfig) (st : CooldownState)
    (now : ℤ) (status : String) (raw : FailureRaw)
    (hen : cfg.enabled = true)
    (hmult : 1 ≤ cfg.backoff_mult)
    (hmax : 0 < cfg.max_sec)
    (hwin : 1 ≤ cfg.fail_window_sec)
    (hbase : 0 < (causeBaseReason cfg (classifyFailure raw).1).1)
    (hwf : st.fail_count ≠ 0 → st.last_fail_ms ≠ 0) :
    let cat := (classifyFailure raw).1
    let decayed : ℕ :=
      if now - st.last_fail_ms > cfg.fail_window_sec * 1000 then 0 else st.fail_count
    let applied :=
      min ((causeBaseReason cfg cat).1 * cfg.backoff_mult ^ decayed) ((cfg.max_sec : ℚ))
    let st' := onEntryFailedBody cfg st now status raw
    st'.fail_count = decayed + 1
    ∧ st'.last_fail_ms = now
    ∧ st'.until_ms = max st.until_ms (now + ⌊applied * 1000⌋)
    ∧ st.until_ms ≤ st'.until_ms
    ∧ st'.last_reason = (causeBaseReason cfg cat).2
    ∧ st'.last_payload = some ⟨now, (causeBaseReason cfg cat).2, applied,
        st'.until_ms, decayed + 1, some ⟨cat, status⟩⟩ := by
  intro cat decayed applied st'
  have hmm : max 1 cfg.backoff_mult = cfg.backoff_mult := max_eq_right hmult
  have hmpos : (0 : ℚ) < cfg.backoff_mult := lt_of_lt_of_le one_pos hmult
  have happos : 0 < applied :=
    lt_min (mul_pos hbase (pow_pos hmpos decayed)) (by exact_mod_cast hmax)
  have hr1 : resetFailCountIfStale cfg st now = { st with fail_count := decayed } :=
    resetFailCountIfStale_eq cfg st now hwin hwf
  have hst' : st' = applyCooldown cfg { st with fail_count := decayed } applied
      (causeBaseReason cfg cat).2 now true (some ⟨cat, status⟩) := by
    show onEntryFailedBody cfg st now status raw = _
    unfold onEntryFailedBody
    rw [hen]
    simp only [Bool.true_eq_false, if_false, hr1, hmm]
    have : ({ st with fail_count := decayed } : CooldownState).fail_count + 1 - 1
        = decayed := by simp
    rw [this]
  -- the second stale-reset inside `_apply_cooldown` is a no-op
  have hd0 : decayed ≠ 0 → ¬ (now - st.last_fail_ms > cfg.fail_window_sec * 1000) := by
    intro hd hc
    exact hd (by simp only [decayed, if_pos hc])
  rw [hst']
  unfold applyCooldown
  rw [if_neg (not_le.mpr happos)]
  have hr2 : resetFailCountIfStale cfg { st with fail_count := decayed, until_ms := max st.until_ms (now + ⌊applied * 1000⌋), last_reason := (causeBaseReason cfg cat).2 } now = { st with fail_count := decayed, until_ms := max st.until_ms (now + ⌊applied * 1000⌋), last_reason := (causeBaseReason cfg cat).2 } := by
    apply resetFailCountIfStale_noop
    intro hd hcon
    exact hd0 (by simpa using hd)
      (by
        have := hcon.2
        rw [max_eq_right hwin] at this
        simpa using this)
  simp only [if_pos rfl, hr2]
  refine ⟨rfl, rfl, rfl, ?_, rfl, rfl⟩
  exact le_max_left _ _

/-- Witness for `on_entry_failed_backoff`: a Binance `-2019` (insufficient
margin) rejection at `now = 0` on a fresh state cools the symbol down for
180 seconds (`until_ms = 180000`) and sets `fail_count = 1`. -/
theorem on_entry_failed_backoff_witness :
    (onEntryFailedBody {} emptyCooldown 0 "REJECTED"
        (.httpError (some 400) (some (-2019)) (some "Margin is insufficient."))).until_ms
      = 180000
    ∧ (onEntryFailedBody {} emptyCooldown 0 "REJECTED"
        (.httpError (some 400) (some (-2019)) (some "Margin is insufficient."))).fail_count
      = 1 := by
  have hcls : (classifyFailure
      (.httpError (some 400) (some (-2019)) (some "Margin is insufficient."))).1
      = "insufficient_margin" := by
    norm_num [classifyFailure]
  have h := on_entry_failed_backoff {} emptyCooldown 0 "REJECTED"
    (.httpError (some 400) (some (-2019)) (some "Margin is insufficient.")) rfl
    (by norm_num) (by norm_num) (by norm_num)
    (by rw [hcls]; simp [causeBaseReason])
    (by intro hc; exact absurd rfl hc)
  rw [hcls] at h
  obtain ⟨h1, _, h3, _⟩ := h
  constructor
  · rw [h3]
    simp [causeBaseReason, emptyCooldown]
    norm_num
  · rw [h1]
    norm_num [emptyCooldown]

/-! ## Orderbook delta book — `quantbot/streams/orderbook_delta.py` -/

structure OrderbookDeltaSnapshot where
  bid_notional : ℚ
  ask_notional : ℚ
  bid_notional_delta : ℚ
  ask_notional_delta : ℚ
  imbalance_delta : ℚ
  deriving Repr, DecidableEq

/-- `OrderbookDeltaBook._notional`: Σ price·qty over the top `n` levels. -/
def obNotional (levels : List (ℚ × ℚ)) (n : ℕ) : ℚ :=
  ((levels.take n).map (fun l => l.1 * l.2)).sum

/-- `OrderbookDeltaBook.update` for one symbol: `prev` is the stored
`(bid_notional, ask_notional)` pair (`none` before the first call; a
stored pair is always truthy in the source since a nonempty tuple is
truthy).  Returns the snapshot and the new stored pair. -/
def obUpdate (depth_levels : ℕ) (prev : Option (ℚ × ℚ))
    (bids asks : List (ℚ × ℚ)) : OrderbookDeltaSnapshot × (ℚ × ℚ) :=
  let b := obNotional bids depth_levels
  let a := obNotional asks depth_levels
  match prev with
  | some pv => (⟨b, a, b - pv.1, a - pv.2, (b - a) - (pv.1 - pv.2)⟩, (b, a))
  | none => (⟨b, a, 0, 0, (b - a) - 0⟩, (b, a))

/-- C7 counterexample: the first `update` for a symbol does NOT return an
all-zero delta triple — with bids `[(100, 1)]` and asks `[(90, 1)]` the
side deltas are 0 but `imbalance_delta = (100 − 90) − 0 = 10`, because the
source substitutes `prev_imb = 0` (not `imb`) when there is no previous
snapshot. -/
theorem orderbook_delta_first_update_cex :
    (obUpdate 10 none [(100, 1)] [(90, 1)]).1.imbalance_delta = 10
    ∧ (obUpdate 10 none [(100, 1)] [(90, 1)]).1.bid_notional_delta = 0
    ∧ (obUpdate 10 none [(100, 1)] [(90, 1)]).1.ask_notional_delta = 0 := by
  norm_num [obUpdate, obNotional]

/-- C7 (amended): the first `update` returns zero side deltas and
`imbalance_delta = bid_now − ask_now`; every subsequent `update` (the
stored pair is `some (pb, pa)`) returns
`imbalance_delta = (bid_now − ask_now) − (pb − pa)` exactly, plus the
side deltas, and stores the current notionals. -/
theorem orderbook_delta_update_formula (depth : ℕ) (prev : Option (ℚ × ℚ))
    (bids asks : List (ℚ × ℚ)) :
    (obUpdate depth none bids asks).1.bid_notional_delta = 0
    ∧ (obUpdate depth none bids asks).1.ask_notional_delta = 0
    ∧ (obUpdate depth none bids asks).1.imbalance_delta
        = obNotional bids depth - obNotional asks depth
    ∧ (∀ pb pa,
        (obUpdate depth (some (pb, pa)) bids asks).1.imbalance_delta
          = (obNotional bids depth - obNotional asks depth) - (pb - pa)
        ∧ (obUpdate depth (some (pb, pa)) bids asks).1.bid_notional_delta
          = obNotional bids depth - pb
        ∧ (obUpdate depth (some (pb, pa)) bids asks).1.ask_notional_delta
          = obNotional asks depth - pa)
    ∧ (obUpdate depth prev bids asks).2
        = (obNotional bids depth, obNotional asks depth) := by
  refine ⟨by simp [obUpdate], by simp [obUpdate], by simp [obUpdate],
    fun pb pa => ⟨by simp [obUpdate], by simp [obUpdate], by simp [obUpdate]⟩, ?_⟩
  cases prev with
  | none => simp [obUpdate]
  | some pv => simp [obUpdate]

/-! ## Exit manager — `quantbot/risk/exits.py` -/

/-- `ExitConfig` (defaults from the source). -/
structure ExitConfig where
  stop_loss_pct : ℚ := 0
  trailing_stop_pct : ℚ := 0
  take_profit_net_pct : ℚ := 0
  fee_rate : ℚ := 4 / 10000
  slippage_rate : ℚ := 0
  leverage : ℚ := 1
  deriving Repr, DecidableEq

/-- The `meta` dict attached to an `ExitDecision`. -/
structure ExitMeta where
  close_side : String
  trail_price : Option ℚ := none
  deriving Repr, DecidableEq

structure ExitDecision where
  should_exit : Bool
  reason : String := ""
  raw_return : ℚ := 0
  net_return : ℚ := 0
  meta : Option ExitMeta := none
  deriving Repr, DecidableEq

/-- `ExitManager.check` on the tracked position `p` for the symbol. -/
def checkExit (cfg : ExitConfig) (p : PositionInfo) (last_price : ℚ) : ExitDecision :=
  if p.qty = 0 ∨ p.avg_cost = 0 then { should_exit := false }
  else
    let entry := p.avg_cost
    let px := last_price
    let part : ℚ × String × Option ExitDecision :=
      if p.qty > 0 then
        let raw_ret := (px - entry) / entry
        let e : Option ExitDecision :=
          if cfg.trailing_stop_pct > 0 ∧ p.high_water > 0 ∧ px ≤ p.high_water * (1 - cfg.trailing_stop_pct) then
            some { should_exit := true, reason := "TRAIL", raw_return := raw_ret, net_return := raw_ret - 2 * cfg.fee_rate - 2 * cfg.slippage_rate, meta := some { close_side := "SELL", trail_price := some (p.high_water * (1 - cfg.trailing_stop_pct)) } }
          else if cfg.stop_loss_pct > 0 ∧ raw_ret ≤ -|cfg.stop_loss_pct| then
            some { should_exit := true, reason := "STOP", raw_return := raw_ret, net_return := raw_ret - 2 * cfg.fee_rate - 2 * cfg.slippage_rate, meta := some { close_side := "SELL" } }
          else none
        (raw_ret, "SELL", e)
      else
        let raw_ret := (entry - px) / entry
        let e : Option ExitDecision :=
          if cfg.trailing_stop_pct > 0 ∧ p.low_water > 0 ∧ px ≥ p.low_water * (1 + cfg.trailing_stop_pct) then
            some { should_exit := true, reason := "TRAIL", raw_return := raw_ret, net_return := raw_ret - 2 * cfg.fee_rate - 2 * cfg.slippage_rate, meta := some { close_side := "BUY", trail_price := some (p.low_water * (1 + cfg.trailing_stop_pct)) } }
          else if cfg.stop_loss_pct > 0 ∧ raw_ret ≤ -|cfg.stop_loss_pct| then
            some { should_exit := true, reason := "STOP", raw_return := raw_ret, net_return := raw_ret - 2 * cfg.fee_rate - 2 * cfg.slippage_rate, meta := some { close_side := "BUY" } }
          else none
        (raw_ret, "BUY", e)
    match part.2.2 with
    | some d => d
    | none =>
      let raw_ret := part.1
      let close_side := part.2.1
      let net_ret := raw_ret - 2 * cfg.fee_rate - 2 * cfg.slippage_rate
      if cfg.take_profit_net_pct > 0 ∧ net_ret ≥ cfg.take_profit_net_pct then
        { should_exit := true, reason := "TP", raw_return := raw_ret, net_return := net_ret, meta := some { close_side := close_side } }
      else
        { should_exit := false, raw_return := raw_ret, net_return := net_ret, meta := some { close_side := close_side } }

/-- C10: whenever the tracked position is flat (`qty = 0`) or has
`avg_cost = 0`, `ExitManager.check` returns the default no-exit decision
before reaching the raw-return divisions by `avg_cost`; in particular it
never signals an exit for such positions, for any `last_price`. -/
theorem exit_check_flat_no_exit (cfg : ExitConfig) (p : PositionInfo)
    (last_price : ℚ) (h : p.qty = 0 ∨ p.avg_cost = 0) :
    checkExit cfg p last_price = { should_exit := false } := by
  simp only [checkExit, if_pos h]

/-- Witness for `exit_check_flat_no_exit`: the empty position at any
concrete price (here 0, where a division by `avg_cost = 0` would lurk)
yields no exit. -/
theorem exit_check_flat_no_exit_witness :
    checkExit {} emptyPos 0 = { should_exit := false } :=
  exit_check_flat_no_exit {} emptyPos 0 (Or.inl (by norm_num [emptyPos]))

/-! ## Risk gate — `quantbot/risk/risk_manager.py` -/

/-- `Signal.meta` keys the risk gate reads (`sig.meta or {}`; a missing
key is `none`, and Python truthiness makes `""` falsy for `exit_reason`). -/
structure SignalMeta where
  exit_reason : Option String := none
  intent : Option String := none
  deriving Repr, DecidableEq

structure Signal where
  symbol : String
  side : String
  meta : SignalMeta := {}
  deriving Repr, DecidableEq

structure PortfolioState where
  equity : ℚ
  day_start_equity : ℚ
  positions : List (String × ℚ)
  prices : List (String × ℚ)
  deriving Repr, DecidableEq

/-- `dict.get(k, 0.0)` on an association list. -/
def lookupOr0 (m : List (String × ℚ)) (k : String) : ℚ :=
  (((m.find? (fun e => e.1 == k)).map (fun e => e.2)).getD 0)

/-- The binance quote suffixes of `_parse_symbol_base_quote`, in the order
`sorted(quotes, key=len, reverse=True)` yields (stable sort: FDUSD first,
then the 4-char quotes in source order, then the 3-char ones). -/
def binanceQuotesSorted : List String :=
  ["FDUSD", "USDT", "USDC", "BUSD", "TUSD", "BTC", "ETH", "BNB", "TRY",
   "EUR", "GBP", "BRL", "AUD", "KRW", "JPY"]

/-- `symbol.split("-", 1)`: split at the first dash, if any. -/
def splitOnceDash : List Char → Option (List Char × List Char)
  | [] => none
  | c :: rest =>
    if c = '-' then some ([], rest)
    else match splitOnceDash rest with
      | some (a, b) => some (c :: a, b)
      | none => none

/-- `risk_manager._parse_symbol_base_quote`. -/
def parseSymbolBaseQuote (venue symbol : String) : String × String :=
  if venue = "upbit" then
    match splitOnceDash symbol.data with
    | some (q, b) => (⟨b⟩, ⟨q⟩)
    | none => (symbol, "KRW")
  else if venue = "binance" then
    match binanceQuotesSorted.find?
        (fun q => q.data.isSuffixOf symbol.data && symbol.length > q.length) with
    | some q => (⟨symbol.data.take (symbol.data.length - q.data.length)⟩, q)
    | none => (symbol, "")
  else (symbol, "")

structure RiskManager where
  max_pos : ℚ
  max_daily_loss : ℚ
  deriving Repr, DecidableEq

/-- Python string truthiness: `bool(s)` for an optional string. -/
def truthyStr : Option String → Bool
  | some s => s != ""
  | none => false

/-- `RiskManager.daily_loss_stop`. -/
def dailyLossStop (rm : RiskManager) (pf : PortfolioState) : Bool :=
  if pf.day_start_equity ≤ 0 then false
  else decide ((pf.equity - pf.day_start_equity) / pf.day_start_equity ≤ -rm.max_daily_loss)

/-- `RiskManager.position_value`. -/
def positionValue (pf : PortfolioState) (symbol : String) (venue : String) : ℚ :=
  let qty := lookupOr0 pf.positions symbol
  let qty := if qty = 0 then lookupOr0 pf.positions (parseSymbolBaseQuote venue symbol).1 else qty
  |qty * lookupOr0 pf.prices symbol|

/-- One per-account entry of `GlobalExposureStore.summary`. -/
structure ExposureEntry where
  abs_notional : ℚ
  equity : ℚ
  deriving Repr, DecidableEq

/-- The `(per_account, total)` summary the shared store returns.  The
store's file I/O is modelled by passing the summary it would produce;
`none` models `global_store is None` (the `except`-swallowed I/O failure
path approves like the final fall-through, so it needs no own case). -/
structure GlobalSummary where
  per : List (String × ExposureEntry)
  total : ExposureEntry
  deriving Repr, DecidableEq

/-- `RiskManager.approve`.  The cap arguments are the resolved values
(`settings.X if arg is None else arg` in the source is configuration
plumbing).  `if man and man > 0` collapses to `man > 0` since `0` is the
only falsy float. -/
def approve (rm : RiskManager) (pf : PortfolioState) (sig : Signal)
    (intended_notional : ℚ) (venue : String) (global_store : Option GlobalSummary)
    (account_tag : String) (max_account_exposure_frac max_total_exposure_frac : ℚ)
    (max_account_notional max_total_notional : ℚ) : Bool × String :=
  let meta := sig.meta
  if truthyStr meta.exit_reason then
    (true, "EXIT_ALWAYS_ALLOWED")
  else
    let is_open_short := sig.side = "SELL" ∧ meta.intent = some "OPEN_SHORT"
    if sig.side = "SELL" ∧ ¬ is_open_short then (true, "EXIT_ALWAYS_ALLOWED")
    else if sig.side = "BUY" ∧ meta.intent = some "COVER_SHORT" then
      (true, "EXIT_ALWAYS_ALLOWED")
    else if dailyLossStop rm pf then (false, "DAILY_LOSS_STOP")
    else if pf.equity > 0
        ∧ (positionValue pf sig.symbol venue + intended_notional) / pf.equity > rm.max_pos then
      (false, "MAX_POSITION_PER_SYMBOL")
    else
      match global_store with
      | none => (true, "OK")
      | some summary =>
        let acct_tag := if account_tag = "" then "default" else account_tag
        let acct := (summary.per.find? (fun e => e.1 == acct_tag)).map (fun e => e.2)
        let acct_abs := ((acct.map (fun e => e.abs_notional)).getD 0)
        let acct_eq := ((acct.map (fun e => e.equity)).getD pf.equity)
        if max_account_notional > 0 ∧ acct_abs + intended_notional > max_account_notional then
          (false, "MAX_ACCOUNT_NOTIONAL")
        else if max_total_notional > 0
            ∧ summary.total.abs_notional + intended_notional > max_total_notional then
          (false, "MAX_TOTAL_NOTIONAL")
        else if acct_eq > 0 ∧ max_account_exposure_frac < 1
            ∧ (acct_abs + intended_notional) / acct_eq > max_account_exposure_frac then
          (false, "MAX_ACCOUNT_EXPOSURE")
        else if summary.total.equity > 0 ∧ max_total_exposure_frac < 1
            ∧ (summary.total.abs_notional + intended_notional) / summary.total.equity
                > max_total_exposure_frac then
          (false, "MAX_TOTAL_EXPOSURE")
        else (true, "OK")

/-- An exit signal as the claim defines it: a truthy `meta.exit_reason`,
or SELL without an `OPEN_SHORT` intent, or BUY with a `COVER_SHORT`
intent. -/
def IsExitSignal (sig : Signal) : Prop :=
  (∃ r, sig.meta.exit_reason = some r ∧ r ≠ "")
  ∨ (sig.side = "SELL" ∧ sig.meta.intent ≠ some "OPEN_SHORT")
  ∨ (sig.side = "BUY" ∧ sig.meta.intent = some "COVER_SHORT")

/-- C1: `approve` answers `(true, "EXIT_ALWAYS_ALLOWED")` for every exit
signal, for every portfolio state, venue, shared-store summary, and cap
configuration — exits are never rejected by the daily loss stop, the
per-symbol cap, or any shared notional/exposure cap. -/
theorem exits_always_approved (rm : RiskManager) (pf : PortfolioState)
    (sig : Signal) (intended_notional : ℚ) (venue : String)
    (global_store : Option GlobalSummary) (account_tag : String)
    (maf mtf man mtn : ℚ) (h : IsExitSignal sig) :
    approve rm pf sig intended_notional venue global_store account_tag maf mtf man mtn
      = (true, "EXIT_ALWAYS_ALLOWED") := by
  rcases h with ⟨r, hr, hne⟩ | ⟨hside, hint⟩ | ⟨hside, hint⟩
  · simp [approve, truthyStr, hr, hne]
  · by_cases hexit : truthyStr sig.meta.exit_reason = true
    · simp [approve, hexit]
    · simp [approve, hexit, hside, hint]
  · by_cases hexit : truthyStr sig.meta.exit_reason = true
    · simp [approve, hexit]
    · by_cases hsell : sig.side = "SELL"
      · have : sig.side ≠ "BUY" := by rw [hsell]; decide
        exact absurd hside this
      · simp [approve, hexit, hside, hint, hsell]

/-- Witness for `exits_always_approved`: a SELL stop-loss exit signal with
a shared store present and every cap set to zero is still approved. -/
theorem exits_always_approved_witness :
    approve ⟨1/10, 1/20⟩ ⟨0, 100, [], []⟩
      ⟨"KRW-BTC", "SELL", ⟨some "STOP", none⟩⟩ 1000 "upbit"
      (some ⟨[("default", ⟨10000, 1⟩)], ⟨10000, 1⟩⟩) "" 0 0 0 0
      = (true, "EXIT_ALWAYS_ALLOWED") :=
  exits_always_approved ⟨1/10, 1/20⟩ ⟨0, 100, [], []⟩
    ⟨"KRW-BTC", "SELL", ⟨some "STOP", none⟩⟩ 1000 "upbit"
    (some ⟨[("default", ⟨10000, 1⟩)], ⟨10000, 1⟩⟩) "" 0 0 0 0
    (Or.inl ⟨"STOP", rfl, by decide⟩)

/-! ## IOC ladder execution — `quantbot/execution/executor.py`

`execute_ioc_limit_prices_then_market` on a LIMIT request.  The adapter's
response to each submitted leg is passed as data: `legs` pairs each ladder
price with the `OrderUpdate` the adapter would return for that leg (legs
after the `remaining ≤ 0` break are never consumed), `mresp` is the
response to the market fallback order.  `remaining` is
`max(0, total − filled)`, so `remaining ≤ 0 ⟺ total − filled ≤ 0`. -/

/-- The fields of a leg's `OrderUpdate` the aggregation reads. -/
structure LegResp where
  order_id : String
  filled_qty : ℚ
  avg_fill_price : Option ℚ
  fee : ℚ
  deriving Repr, DecidableEq

/-- The loop accumulator (`filled_total`, `fee_total`, `wsum`, `leg_ids`). -/
structure IOCState where
  filled_total : ℚ
  fee_total : ℚ
  wsum : ℚ
  leg_ids : List String
  deriving Repr, DecidableEq

/-- The IOC-leg loop.  One iteration appends the leg id, adds the filled
quantity and `leg_price · filled` to the totals when the leg filled
(`leg_price` = reported avg price if present else the submitted limit
price), and accumulates the fee. -/
def iocLegs (total : ℚ) : IOCState → List (ℚ × LegResp) → IOCState
  | st, [] => st
  | st, (px, r) :: rest =>
    if total - st.filled_total ≤ 0 then st
    else
      iocLegs total
        { filled_total := st.filled_total + (if 0 < r.filled_qty then r.filled_qty else 0),
          fee_total := st.fee_total + r.fee,
          wsum := st.wsum + (if 0 < r.filled_qty then (r.avg_fill_price.getD px) * r.filled_qty else 0),
          leg_ids := st.leg_ids ++ [r.order_id] } rest

/-- The market leg's effective price: the reported avg price when
positive, else the last ladder price (0 when the ladder is empty) —
`float(upd.avg_fill_price or 0.0) or 0.0` then the `px2 <= 0` fallback. -/
def marketPrice (prices : List ℚ) (m : LegResp) : ℚ :=
  let px2 := m.avg_fill_price.getD 0
  if px2 ≤ 0 then (prices.getLast?).getD 0 else px2

/-- The market-fallback step (`remaining > 0 and fallback_market`). -/
def iocMarket (total : ℚ) (prices : List ℚ) (fallback : Bool) (m : LegResp)
    (st : IOCState) : IOCState :=
  if 0 < total - st.filled_total ∧ fallback = true then
    { filled_total := st.filled_total + (if 0 < m.filled_qty then m.filled_qty else 0),
      fee_total := st.fee_total + m.fee,
      wsum := st.wsum + (if 0 < m.filled_qty then marketPrice prices m * m.filled_qty else 0),
      leg_ids := st.leg_ids ++ [m.order_id] }
  else st

/-- The synthesized `OrderUpdate` fields. -/
structure SynthUpdate where
  order_id : String
  status : String
  filled_qty : ℚ
  avg_fill_price : Option ℚ
  fee : Option ℚ
  deriving Repr, DecidableEq

/-- `OrderExecutor.execute_ioc_limit_prices_then_market` (LIMIT path). -/
def executeIocLimitPricesThenMarket (total : ℚ) (legs : List (ℚ × LegResp))
    (fallback_market : Bool) (mresp : LegResp) : SynthUpdate :=
  let st := iocLegs total ⟨0, 0, 0, []⟩ legs
  let st := iocMarket total (legs.map (fun l => l.1)) fallback_market mresp st
  { order_id := String.intercalate "+" (st.leg_ids.filter (fun i => i != "")),
    status := if st.filled_total ≥ total - 1/10^12 then "FILLED"
      else if st.filled_total > 0 then "PARTIALLY_FILLED" else "REJECTED",
    filled_qty := st.filled_total,
    avg_fill_price := if st.filled_total > 0 then some (st.wsum / st.filled_total) else none,
    fee := if st.fee_total ≠ 0 then some st.fee_total else none }

/-- The legs actually submitted: the prefix of the ladder consumed before
`remaining ≤ 0`, tracking the filled accumulator like the loop does. -/
def submittedLegs (total : ℚ) : ℚ → List (ℚ × LegResp) → List (ℚ × LegResp)
  | _, [] => []
  | f, (px, r) :: rest =>
    if total - f ≤ 0 then []
    else (px, r) :: submittedLegs total (f + (if 0 < r.filled_qty then r.filled_qty else 0)) rest

/-- Every submitted leg reports `0 ≤ filled_qty ≤ requested qty` (the
requested qty of a leg is the remaining quantity at submission). -/
def LegsBounded (total : ℚ) : ℚ → List (ℚ × LegResp) → Prop
  | _, [] => True
  | f, (_, r) :: rest =>
    if total - f ≤ 0 then True
    else (0 ≤ r.filled_qty ∧ r.filled_qty ≤ total - f)
      ∧ LegsBounded total (f + (if 0 < r.filled_qty then r.filled_qty else 0)) rest

/-- Σ leg_filled over a leg list (the claim's aggregate fill). -/
def legsFilledSum (l : List (ℚ × LegResp)) : ℚ :=
  (l.map (fun pr => pr.2.filled_qty)).sum

/-- Σ leg_price · leg_filled over a leg list (the claim's weighted sum);
`leg_price` is the adapter's avg price if present else the limit price. -/
def legsWeightedSum (l : List (ℚ × LegResp)) : ℚ :=
  (l.map (fun pr => (pr.2.avg_fill_price.getD pr.1) * pr.2.filled_qty)).sum

/-- The market leg's contribution to the aggregate fill. -/
def marketFill (total F : ℚ) (fallback : Bool) (m : LegResp) : ℚ :=
  if 0 < total - F ∧ fallback = true then (if 0 < m.filled_qty then m.filled_qty else 0) else 0

/-- The market leg's contribution to the weighted price sum. -/
def marketWsum (total F : ℚ) (fallback : Bool) (prices : List ℚ) (m : LegResp) : ℚ :=
  if 0 < total - F ∧ fallback = true then
    (if 0 < m.filled_qty then marketPrice prices m * m.filled_qty else 0) else 0

/-- The market leg's contribution to the leg-id list. -/
def marketIds (total F : ℚ) (fallback : Bool) (m : LegResp) : List String :=
  if 0 < total - F ∧ fallback = true then [m.order_id] else []

lemma iocLegs_spec (total : ℚ) (legs : List (ℚ × LegResp)) :
    ∀ st : IOCState, LegsBounded total st.filled_total legs →
      (iocLegs total st legs).filled_total
          = st.filled_total + legsFilledSum (submittedLegs total st.filled_total legs)
      ∧ (iocLegs total st legs).wsum
          = st.wsum + legsWeightedSum (submittedLegs total st.filled_total legs)
      ∧ (iocLegs total st legs).leg_ids
          = st.leg_ids ++ (submittedLegs total st.filled_total legs).map (fun pr => pr.2.order_id)
      ∧ (st.filled_total ≤ total → (iocLegs total st legs).filled_total ≤ total) := by
  induction legs with
  | nil =>
      intro st _
      simp [iocLegs, submittedLegs, legsFilledSum, legsWeightedSum]
  | cons hd rest ih =>
      obtain ⟨px, r⟩ := hd
      intro st h
      by_cases hbreak : total - st.filled_total ≤ 0
      · simp only [iocLegs, submittedLegs, if_pos hbreak]
        simp [legsFilledSum, legsWeightedSum]
      · simp only [LegsBounded, if_neg hbreak] at h
        obtain ⟨⟨hf0, hfb⟩, hrest⟩ := h
        have hδ : (if 0 < r.filled_qty then r.filled_qty else 0) = r.filled_qty := by
          rcases lt_or_eq_of_le hf0 with hlt | heq
          · rw [if_pos hlt]
          · rw [← heq]; simp
        simp only [iocLegs, submittedLegs, if_neg hbreak]
        have := ih { filled_total := st.filled_total + (if 0 < r.filled_qty then r.filled_qty else 0),
                     fee_total := st.fee_total + r.fee,
                     wsum := st.wsum + (if 0 < r.filled_qty then (r.avg_fill_price.getD px) * r.filled_qty else 0),
                     leg_ids := st.leg_ids ++ [r.order_id] } (by simpa using hrest)
        obtain ⟨h1, h2, h3, h4⟩ := this
        refine ⟨?_, ?_, ?_, ?_⟩
        · rw [h1]
          simp only [legsFilledSum, List.map_cons, List.sum_cons, hδ]
          ring
        · rw [h2]
          simp only [legsWeightedSum, List.map_cons, List.sum_cons]
          rcases lt_or_eq_of_le hf0 with hlt | heq
          · rw [if_pos hlt]; ring
          · rw [← heq]; simp
        · rw [h3]
          simp [List.append_assoc]
        · intro _
          exact h4 (by simp only [hδ]; linarith)

/-- C4 counterexample: with `req.qty = 1` and a single IOC leg that the
adapter reports as filling `1 − 10⁻¹³` (≤ the requested 1) at price 100,
no market fallback, the synthesized status is "FILLED" even though
`remaining = 10⁻¹³ > 0` — the source grants FILLED with a `1e-12`
tolerance, so "status = FILLED when remaining ≤ 0, else PARTIALLY_FILLED"
is false as stated. -/
theorem ioc_status_epsilon_cex :
    (executeIocLimitPricesThenMarket 1 [(100, ⟨"A", 1 - 1/10^13, some 100, 0⟩)]
      false ⟨"", 0, none, 0⟩).status = "FILLED"
    ∧ (executeIocLimitPricesThenMarket 1 [(100, ⟨"A", 1 - 1/10^13, some 100, 0⟩)]
      false ⟨"", 0, none, 0⟩).filled_qty < 1 := by
  constructor
  · norm_num [executeIocLimitPricesThenMarket, iocLegs, iocMarket]
  · norm_num [executeIocLimitPricesThenMarket, iocLegs, iocMarket]

/-- C4 (amended): assuming every submitted leg reports
`0 ≤ filled_qty ≤ requested qty` (and likewise for the market leg), the
synthesized update has `filled_qty = Σ leg_filled ≤ req.qty`; when
anything filled, `avg_fill_price = Σ(leg_price · leg_filled) /
filled_total` where an IOC leg's price is the adapter's avg price if
present else its limit price and the market leg's price is its avg price
when positive else the last ladder price; `order_id` is the "+"-join of
the non-empty leg ids; and `status` is "FILLED" when
`filled_total ≥ req.qty − 1e-12`, else "PARTIALLY_FILLED" when
`filled_total > 0`, else "REJECTED". -/
theorem ioc_ladder_aggregation (total : ℚ) (legs : List (ℚ × LegResp))
    (fallback : Bool) (mresp : LegResp)
    (hb : LegsBounded total 0 legs)
    (hm : 0 < total - legsFilledSum (submittedLegs total 0 legs) → fallback = true →
      0 ≤ mresp.filled_qty
      ∧ mresp.filled_qty ≤ total - legsFilledSum (submittedLegs total 0 legs)) :
    let u := executeIocLimitPricesThenMarket total legs fallback mresp
    let subm := submittedLegs total 0 legs
    let F := legsFilledSum subm
    let prices := legs.map (fun l => l.1)
    let MF := marketFill total F fallback mresp
    u.filled_qty = F + MF
    ∧ (0 ≤ total → u.filled_qty ≤ total)
    ∧ u.order_id = String.intercalate "+"
        (((subm.map (fun pr => pr.2.order_id)) ++ marketIds total F fallback mresp).filter
          (fun i => i != ""))
    ∧ u.avg_fill_price = (if 0 < F + MF then
        some ((legsWeightedSum subm + marketWsum total F fallback prices mresp) / (F + MF))
      else none)
    ∧ u.status = (if u.filled_qty ≥ total - 1/10^12 then "FILLED"
        else if u.filled_qty > 0 then "PARTIALLY_FILLED" else "REJECTED") := by
  obtain ⟨h1, h2, h3, h4⟩ := iocLegs_spec total legs ⟨0, 0, 0, []⟩ (by simpa using hb)
  simp only [zero_add, List.nil_append] at h1 h2 h3 h4
  dsimp only
  rw [h1] at h4
  by_cases hmkt : 0 < total - legsFilledSum (submittedLegs total 0 legs) ∧ fallback = true
  · obtain ⟨hm0, hm1⟩ := hm hmkt.1 hmkt.2
    simp only [executeIocLimitPricesThenMarket, iocMarket, h1, h2, h3, if_pos hmkt,
      marketFill, marketWsum, marketIds]
    refine ⟨?_, ?_, ?_, ?_, ?_⟩
    · trivial
    · intro ht
      have hFt : legsFilledSum (submittedLegs total 0 legs) ≤ total := h4 ht
      split_ifs with hf
      · linarith
      · linarith
    · trivial
    · trivial
    · trivial
  · simp only [executeIocLimitPricesThenMarket, iocMarket, h1, h2, h3, if_neg hmkt,
      marketFill, marketWsum, marketIds]
    refine ⟨?_, ?_, ?_, ?_, ?_⟩
    · simp
    · intro ht
      simpa using h4 ht
    · simp
    · simp
    · simp

/-- Witness for `ioc_ladder_aggregation`: requesting 2, one IOC leg fills
1 at 100, the market fallback fills the remaining 1 at 99 — aggregate
fill 2, avg price 99.5, order id "A+B" and status FILLED. -/
theorem ioc_ladder_aggregation_witness :
    (executeIocLimitPricesThenMarket 2 [(100, ⟨"A", 1, some 100, 0⟩)]
        true ⟨"B", 1, some 99, 0⟩).filled_qty = 2
    ∧ (executeIocLimitPricesThenMarket 2 [(100, ⟨"A", 1, some 100, 0⟩)]
        true ⟨"B", 1, some 99, 0⟩).avg_fill_price = some (199/2)
    ∧ (executeIocLimitPricesThenMarket 2 [(100, ⟨"A", 1, some 100, 0⟩)]
        true ⟨"B", 1, some 99, 0⟩).order_id = "A+B"
    ∧ (executeIocLimitPricesThenMarket 2 [(100, ⟨"A", 1, some 100, 0⟩)]
        true ⟨"B", 1, some 99, 0⟩).status = "FILLED" := by
  have h := ioc_ladder_aggregation 2 [(100, ⟨"A", 1, some 100, 0⟩)] true
    ⟨"B", 1, some 99, 0⟩
    (by norm_num [LegsBounded])
    (by intro h1 _
        norm_num [submittedLegs, legsFilledSum] at h1 ⊢)
  obtain ⟨h1, _, h3, h4, h5⟩ := h
  have hsub : submittedLegs 2 0 [((100 : ℚ), (⟨"A", 1, some 100, 0⟩ : LegResp))]
      = [(100, ⟨"A", 1, some 100, 0⟩)] := by
    norm_num [submittedLegs]
  rw [hsub] at h1 h3 h4
  refine ⟨?_, ?_, ?_, ?_⟩
  · rw [h1]
    norm_num [legsFilledSum, marketFill]
  · rw [h4]
    norm_num [legsFilledSum, legsWeightedSum, marketFill, marketWsum, marketPrice]
  · rw [h3]
    norm_num [legsFilledSum, marketIds]
    rfl
  · rw [h5, h1]
    norm_num [legsFilledSum, marketFill]

/-! ## Exchange-rules sizing — `quantbot/live.py:_adjust_qty_by_rules`

The adapter call `get_symbol_rules` is I/O: the rules it would return are
passed as an argument (`none` models "no rules").  Reasons are modelled as
an inductive carrying the numeric payload of the formatted message. -/

/-- `SymbolRules` fields the adjuster reads (`qty_precision` is unused
here). -/
structure SymbolRules where
  qty_step : ℚ
  min_qty : ℚ
  max_qty : ℚ
  min_notional : Option ℚ
  deriving Repr, DecidableEq

/-- The `cfg` fields `_adjust_qty_by_rules` reads (defaults from the
`getattr(..., default)` calls). -/
structure SizingConfig where
  min_notional_policy : String := "skip"
  min_notional_buffer : ℚ := 1
  leverage : ℚ := 1
  auto_bump_max_over_margin_frac : ℚ := 1/2
  auto_bump_max_equity_frac : ℚ := 3/10
  deriving Repr, DecidableEq

/-- The rejection reasons of `_adjust_qty_by_rules` (the formatted detail
text of the `MIN_NOTIONAL<…>` messages is presentation; the constructors
carry the numeric threshold). -/
inductive SkipReason
  | badQtyOrPrice
  | minNotionalSkip (m : ℚ)
  | minNotionalAutoSkipNoBudget (m : ℚ)
  | minNotionalAutoSkip (m : ℚ)
  | qtyAboveMax
  | qtyAdjLe0
  deriving Repr, DecidableEq

/-- The AUTO decision (lines 296–315): `lev = max(1e-9, leverage or 1)`;
reject `no_margin_budget` when `intended_margin ≤ 0`, else reject when
`req_margin` exceeds `intended_margin·(1 + max(0, mom))` or, when
`mef > 0`, `equity·max(0, mef)` (with `mef ≤ 0` the equity cap is `inf`). -/
def autoGate (cfg : SizingConfig) (m target equity intended : ℚ) : Option SkipReason :=
  let lev := max (1/10^9) (if cfg.leverage = 0 then 1 else cfg.leverage)
  let intended_margin := intended / lev
  let req_margin := target / lev
  let mom := if cfg.auto_bump_max_over_margin_frac = 0 then 1/2
    else cfg.auto_bump_max_over_margin_frac
  let mef := if cfg.auto_bump_max_equity_frac = 0 then 3/10
    else cfg.auto_bump_max_equity_frac
  let cap_margin := intended_margin * (1 + max 0 mom)
  if intended_margin ≤ 0 then some (.minNotionalAutoSkipNoBudget m)
  else if req_margin > cap_margin ∨ (0 < mef ∧ req_margin > equity * max 0 mef) then
    some (.minNotionalAutoSkip m)
  else none

/-- The bump (lines 316–326): `qty_needed = target / max(1e-12, price)`,
ceil to step when a step is set, then re-enforce `min_qty`. -/
def bumpQty (r : SymbolRules) (target last_price : ℚ) : ℚ :=
  let qty_needed := target / max (1/10^12) last_price
  let qa := if 0 < r.qty_step then (⌈qty_needed / r.qty_step⌉ : ℚ) * r.qty_step
    else qty_needed
  if 0 < r.min_qty ∧ qa < r.min_qty then r.min_qty else qa

/-- The min-notional block (lines 289–329): `getattr(rules, "min_notional")`
is truthy iff present and nonzero; policy string is lowercased with
`"skip"` for a falsy value. -/
def minNotionalStage (r : SymbolRules) (cfg : SizingConfig)
    (last_price equity intended qa na : ℚ) : (ℚ × ℚ) ⊕ SkipReason :=
  match r.min_notional with
  | none => .inl (qa, na)
  | some m =>
    if m = 0 then .inl (qa, na)
    else if 0 < m ∧ na < m then
      let policy := lowerStr (if cfg.min_notional_policy = "" then "skip"
        else cfg.min_notional_policy)
      if policy = "bump" ∨ policy = "auto" then
        let buf := if cfg.min_notional_buffer = 0 then 1 else cfg.min_notional_buffer
        let target := m * max 1 buf
        match (if policy = "auto" then autoGate cfg m target equity intended else none) with
        | some rsn => .inr rsn
        | none => .inl (bumpQty r target last_price, bumpQty r target last_price * last_price)
      else .inr (.minNotionalSkip m)
    else .inl (qa, na)

/-- `_adjust_qty_by_rules`: returns `(qty_adj, notional_adj, reason)`.
The step guard `rules.qty_step` truthy and `step > 0` collapses to
`0 < qty_step`. -/
def adjustQtyByRules (rules : Option SymbolRules) (cfg : SizingConfig)
    (last_price qty equity intended_notional : ℚ) : ℚ × ℚ × Option SkipReason :=
  if qty ≤ 0 ∨ last_price ≤ 0 then (0, 0, some .badQtyOrPrice)
  else
    let qty_adj := match rules with
      | some r => if 0 < r.qty_step then (⌊qty / r.qty_step⌋ : ℚ) * r.qty_step else qty
      | none => qty
    let qty_adj := match rules with
      | some r => if 0 < r.min_qty ∧ qty_adj < r.min_qty then r.min_qty else qty_adj
      | none => qty_adj
    let notional_adj := qty_adj * last_price
    let mn := match rules with
      | none => Sum.inl (qty_adj, notional_adj)
      | some r => minNotionalStage r cfg last_price equity intended_notional qty_adj notional_adj
    match mn with
    | .inr rsn => (0, 0, some rsn)
    | .inl (qa, na) =>
      if (match rules with
          | some r => decide (0 < r.max_qty ∧ r.max_qty < qa)
          | none => false) then (0, 0, some .qtyAboveMax)
      else if qa ≤ 0 then (0, 0, some .qtyAdjLe0)
      else (qa, na, none)

lemma bumpQty_ge_target (r : SymbolRules) (target lp : ℚ) (hs : 0 < r.qty_step)
    (hp12 : 1/10^12 ≤ lp) (ht : 0 < target) :
    target ≤ bumpQty r target lp * lp := by
  have hlp : (0:ℚ) < lp := lt_of_lt_of_le (by norm_num) hp12
  have hmax : max (1/10^12 : ℚ) lp = lp := max_eq_right hp12
  simp only [bumpQty, hmax, if_pos hs]
  have hceil : target / lp ≤ (⌈target / lp / r.qty_step⌉ : ℚ) * r.qty_step := by
    have h := mul_le_mul_of_nonneg_right (Int.le_ceil (target / lp / r.qty_step)) hs.le
    rwa [div_mul_cancel₀ _ (ne_of_gt hs)] at h
  have htl : target = (target / lp) * lp := (div_mul_cancel₀ _ (ne_of_gt hlp)).symm
  split_ifs with hraise
  · have h1 : target / lp ≤ r.min_qty := le_trans hceil hraise.2.le
    calc target = (target / lp) * lp := htl
    _ ≤ r.min_qty * lp := mul_le_mul_of_nonneg_right h1 hlp.le
  · calc target = (target / lp) * lp := htl
    _ ≤ _ := mul_le_mul_of_nonneg_right hceil hlp.le

lemma bumpQty_shape (r : SymbolRules) (target lp : ℚ) (hs : 0 < r.qty_step) :
    bumpQty r target lp = r.min_qty ∨ ∃ k : ℤ, bumpQty r target lp = k * r.qty_step := by
  simp only [bumpQty, if_pos hs]
  split_ifs with h
  · exact Or.inl rfl
  · exact Or.inr ⟨_, rfl⟩

lemma bumpQty_min (r : SymbolRules) (target lp : ℚ) (hs : 0 < r.qty_step)
    (hm : 0 < r.min_qty) : r.min_qty ≤ bumpQty r target lp := by
  simp only [bumpQty, if_pos hs]
  split_ifs with h
  · exact le_refl _
  · push_neg at h
    exact h hm

lemma minNotionalStage_cases (r : SymbolRules) (cfg : SizingConfig)
    (lp equity intended qa na : ℚ) :
    (∃ rsn, minNotionalStage r cfg lp equity intended qa na = .inr rsn)
    ∨ (minNotionalStage r cfg lp equity intended qa na = .inl (qa, na)
        ∧ ∀ m, r.min_notional = some m → 0 < m → m ≤ na)
    ∨ (∃ m, r.min_notional = some m ∧ 0 < m
        ∧ ∃ target, m ≤ target
        ∧ minNotionalStage r cfg lp equity intended qa na
            = .inl (bumpQty r target lp, bumpQty r target lp * lp)) := by
  unfold minNotionalStage
  cases hmn : r.min_notional with
  | none =>
      dsimp only
      right; left
      exact ⟨rfl, fun m hm => absurd hm (by simp)⟩
  | some m =>
      dsimp only
      by_cases hm0 : m = 0
      · right; left
        refine ⟨by rw [if_pos hm0], ?_⟩
        intro m' hm' hm'pos
        rw [Option.some_inj] at hm'
        rw [← hm', hm0] at hm'pos
        exact absurd hm'pos (lt_irrefl 0)
      · rw [if_neg hm0]
        by_cases hgate : 0 < m ∧ na < m
        · rw [if_pos hgate]
          by_cases hpol : lowerStr (if cfg.min_notional_policy = "" then "skip"
              else cfg.min_notional_policy) = "bump"
            ∨ lowerStr (if cfg.min_notional_policy = "" then "skip"
              else cfg.min_notional_policy) = "auto"
          · rw [if_pos hpol]
            cases hg : (if lowerStr (if cfg.min_notional_policy = "" then "skip"
                else cfg.min_notional_policy) = "auto" then
                autoGate cfg m (m * max 1 (if cfg.min_notional_buffer = 0 then 1
                  else cfg.min_notional_buffer)) equity intended else none) with
            | some rsn =>
                left
                exact ⟨rsn, rfl⟩
            | none =>
                right; right
                refine ⟨m, rfl, hgate.1,
                  m * max 1 (if cfg.min_notional_buffer = 0 then 1
                    else cfg.min_notional_buffer), ?_, rfl⟩
                exact le_mul_of_one_le_right hgate.1.le (le_max_left _ _)
          · rw [if_neg hpol]
            exact Or.inl ⟨_, rfl⟩
        · rw [if_neg hgate]
          right; left
          refine ⟨rfl, ?_⟩
          intro m' hm' hm'pos
          rw [Option.some_inj] at hm'
          subst hm'
          push_neg at hgate
          exact hgate hm'pos

/-- C5 counterexample: with `qty_step = 2`, `min_qty = 3` (not a step
multiple), `qty = 1` and `last_price = 1`, the adjuster floors 1 to 0,
raises it to `min_qty = 3` and returns `qty_adj = 3` — which is not a
multiple of `qty_step = 2`, so "qty_adj is a non-negative multiple of
qty_step" is false as stated. -/
theorem adjust_qty_step_multiple_cex :
    adjustQtyByRules (some ⟨2, 3, 0, none⟩) {} 1 1 0 0 = (3, 3, none)
    ∧ ¬ ∃ k : ℤ, (3 : ℚ) = k * 2 := by
  constructor
  · norm_num [adjustQtyByRules, minNotionalStage]
  · rintro ⟨k, hk⟩
    have h2 : ((2 * k : ℤ) : ℚ) = 3 := by push_cast; linarith
    have h3 : (2 * k : ℤ) = 3 := by exact_mod_cast h2
    omega

/-- C5 (amended): for `qty > 0`, `last_price > 0` and rules with
`qty_step > 0`, the adjuster either rejects `(0, 0, reason)` or returns a
positive `qty_adj` that is a multiple of `qty_step` or equal to `min_qty`
(the raise to a `min_qty` that is not itself a step multiple breaks pure
step-multiplicity), with `min_qty ≤ qty_adj ≤ max_qty` when those rules
are set, and `qty_adj · last_price ≥ min_notional` when `min_notional` is
set and `last_price ≥ 1e-12` (below that the bump's `max(1e-12, price)`
guard can undershoot). -/
theorem adjust_qty_by_rules_output_sound (r : SymbolRules) (cfg : SizingConfig)
    (last_price qty equity intended : ℚ)
    (hq : 0 < qty) (hp : 0 < last_price) (hs : 0 < r.qty_step) :
    let res := adjustQtyByRules (some r) cfg last_price qty equity intended
    (∃ rsn, res = (0, 0, some rsn))
    ∨ (res.2.2 = none
       ∧ 0 < res.1
       ∧ ((∃ k : ℤ, res.1 = k * r.qty_step) ∨ res.1 = r.min_qty)
       ∧ (0 < r.min_qty → r.min_qty ≤ res.1)
       ∧ (0 < r.max_qty → res.1 ≤ r.max_qty)
       ∧ (∀ m, r.min_notional = some m → 0 < m → 1/10^12 ≤ last_price →
            m ≤ res.1 * last_price)
       ∧ res.2.1 = res.1 * last_price) := by
  have hbad : ¬ (qty ≤ 0 ∨ last_price ≤ 0) := by push_neg; exact ⟨hq, hp⟩
  dsimp only
  simp only [adjustQtyByRules, if_neg hbad, if_pos hs]
  rcases minNotionalStage_cases r cfg last_price equity intended
      (if 0 < r.min_qty ∧ (⌊qty / r.qty_step⌋ : ℚ) * r.qty_step < r.min_qty then r.min_qty
        else (⌊qty / r.qty_step⌋ : ℚ) * r.qty_step)
      ((if 0 < r.min_qty ∧ (⌊qty / r.qty_step⌋ : ℚ) * r.qty_step < r.min_qty then r.min_qty
        else (⌊qty / r.qty_step⌋ : ℚ) * r.qty_step) * last_price)
    with ⟨rsn, hr⟩ | ⟨heq, hclause⟩ | ⟨m, hmn, hm, target, htm, heq⟩
  · rw [hr]
    exact Or.inl ⟨rsn, rfl⟩
  · by_cases hraise : 0 < r.min_qty ∧ (⌊qty / r.qty_step⌋ : ℚ) * r.qty_step < r.min_qty
    · simp only [if_pos hraise] at heq hclause ⊢
      rw [heq]
      by_cases hmax : 0 < r.max_qty ∧ r.max_qty < r.min_qty
      · simp only [decide_eq_true_eq, if_pos hmax]
        exact Or.inl ⟨.qtyAboveMax, rfl⟩
      · simp only [decide_eq_true_eq, if_neg hmax]
        split_ifs with hle
        · exact Or.inl ⟨.qtyAdjLe0, rfl⟩
        · right
          push_neg at hle hmax
          exact ⟨rfl, hle, Or.inr rfl, fun _ => le_refl _, hmax,
            fun m hmn hm _ => hclause m hmn hm, rfl⟩
    · simp only [if_neg hraise] at heq hclause ⊢
      rw [heq]
      by_cases hmax : 0 < r.max_qty ∧ r.max_qty < (⌊qty / r.qty_step⌋ : ℚ) * r.qty_step
      · simp only [decide_eq_true_eq, if_pos hmax]
        exact Or.inl ⟨.qtyAboveMax, rfl⟩
      · simp only [decide_eq_true_eq, if_neg hmax]
        split_ifs with hle
        · exact Or.inl ⟨.qtyAdjLe0, rfl⟩
        · right
          push_neg at hle hmax hraise
          exact ⟨rfl, hle, Or.inl ⟨⌊qty / r.qty_step⌋, rfl⟩, fun hmq => hraise hmq, hmax,
            fun m hmn hm _ => hclause m hmn hm, rfl⟩
  · rw [heq]
    by_cases hmax : 0 < r.max_qty ∧ r.max_qty < bumpQty r target last_price
    · simp only [decide_eq_true_eq, if_pos hmax]
      exact Or.inl ⟨.qtyAboveMax, rfl⟩
    · simp only [decide_eq_true_eq, if_neg hmax]
      split_ifs with hle
      · exact Or.inl ⟨.qtyAdjLe0, rfl⟩
      · right
        push_neg at hle hmax
        refine ⟨rfl, hle, ?_, ?_, hmax, ?_, rfl⟩
        · rcases bumpQty_shape r target last_price hs with h | h
          · exact Or.inr h
          · exact Or.inl h
        · intro hminq
          exact bumpQty_min r target last_price hs hminq
        · intro m' hm' hm'pos hp12
          rw [hmn, Option.some_inj] at hm'
          subst hm'
          exact le_trans htm (bumpQty_ge_target r target last_price hs hp12
            (lt_of_lt_of_le hm htm))

/-- Witness for `adjust_qty_by_rules_output_sound`: step 1, no min/max
qty, no min notional, `qty = 5/2` at price 1 — floors to 2 and succeeds. -/
theorem adjust_qty_by_rules_output_sound_witness :
    let res := adjustQtyByRules (some ⟨1, 0, 0, none⟩) {} 1 (5/2) 0 0
    (∃ rsn, res = (0, 0, some rsn))
    ∨ (res.2.2 = none
       ∧ 0 < res.1
       ∧ ((∃ k : ℤ, res.1 = k * (⟨1, 0, 0, none⟩ : SymbolRules).qty_step)
          ∨ res.1 = (⟨1, 0, 0, none⟩ : SymbolRules).min_qty)
       ∧ (0 < (⟨1, 0, 0, none⟩ : SymbolRules).min_qty
          → (⟨1, 0, 0, none⟩ : SymbolRules).min_qty ≤ res.1)
       ∧ (0 < (⟨1, 0, 0, none⟩ : SymbolRules).max_qty
          → res.1 ≤ (⟨1, 0, 0, none⟩ : SymbolRules).max_qty)
       ∧ (∀ m, (⟨1, 0, 0, none⟩ : SymbolRules).min_notional = some m → 0 < m →
            1/10^12 ≤ (1 : ℚ) → m ≤ res.1 * 1)
       ∧ res.2.1 = res.1 * 1) :=
  adjust_qty_by_rules_output_sound ⟨1, 0, 0, none⟩ {} 1 (5/2) 0 0
    (by norm_num) (by norm_num) (by norm_num)

lemma auto_policy_bump_aux (r : SymbolRules) (cfg : SizingConfig)
    (lp qty equity intended m : ℚ)
    (hq : 0 < qty) (hp12 : 1/10^12 ≤ lp) (hs : 0 < r.qty_step)
    (hmn : r.min_notional = some m) (hm : 0 < m)
    (hpol : cfg.min_notional_policy = "auto")
    (hbuf : 1 ≤ cfg.min_notional_buffer)
    (hlev : 1/10^9 ≤ cfg.leverage)
    (hmom : 0 < cfg.auto_bump_max_over_margin_frac)
    (hmef : 0 < cfg.auto_bump_max_equity_frac)
    (hbelow : (if 0 < r.min_qty ∧ (⌊qty / r.qty_step⌋ : ℚ) * r.qty_step < r.min_qty
        then r.min_qty else (⌊qty / r.qty_step⌋ : ℚ) * r.qty_step) * lp < m)
    (hminq : r.min_qty ≤ (⌈m * cfg.min_notional_buffer / lp / r.qty_step⌉ : ℚ) * r.qty_step)
    (hmaxq : r.max_qty ≤ 0
        ∨ (⌈m * cfg.min_notional_buffer / lp / r.qty_step⌉ : ℚ) * r.qty_step ≤ r.max_qty) :
    ((m * cfg.min_notional_buffer / cfg.leverage
          > intended / cfg.leverage * (1 + cfg.auto_bump_max_over_margin_frac)
        ∨ m * cfg.min_notional_buffer / cfg.leverage
          > equity * cfg.auto_bump_max_equity_frac)
      ↔ (adjustQtyByRules (some r) cfg lp qty equity intended
            = (0, 0, some (.minNotionalAutoSkip m))
          ∨ adjustQtyByRules (some r) cfg lp qty equity intended
            = (0, 0, some (.minNotionalAutoSkipNoBudget m))))
    ∧ (0 < intended / cfg.leverage →
        (m * cfg.min_notional_buffer / cfg.leverage
            > intended / cfg.leverage * (1 + cfg.auto_bump_max_over_margin_frac)
          ∨ m * cfg.min_notional_buffer / cfg.leverage
            > equity * cfg.auto_bump_max_equity_frac) →
        adjustQtyByRules (some r) cfg lp qty equity intended
          = (0, 0, some (.minNotionalAutoSkip m)))
    ∧ (¬ (m * cfg.min_notional_buffer / cfg.leverage
            > intended / cfg.leverage * (1 + cfg.auto_bump_max_over_margin_frac)
          ∨ m * cfg.min_notional_buffer / cfg.leverage
            > equity * cfg.auto_bump_max_equity_frac) →
        adjustQtyByRules (some r) cfg lp qty equity intended
          = ((⌈m * cfg.min_notional_buffer / lp / r.qty_step⌉ : ℚ) * r.qty_step,
             (⌈m * cfg.min_notional_buffer / lp / r.qty_step⌉ : ℚ) * r.qty_step * lp,
             none)) := by
  have hp : (0:ℚ) < lp := lt_of_lt_of_le (by norm_num) hp12
  have hbad : ¬ (qty ≤ 0 ∨ lp ≤ 0) := by push_neg; exact ⟨hq, hp⟩
  have hbufpos : 0 < cfg.min_notional_buffer := lt_of_lt_of_le one_pos hbuf
  have hlevpos : 0 < cfg.leverage := lt_of_lt_of_le (by norm_num) hlev
  have htpos : 0 < m * cfg.min_notional_buffer := mul_pos hm hbufpos
  have hreqpos : 0 < m * cfg.min_notional_buffer / cfg.leverage := div_pos htpos hlevpos
  have hpolred : lowerStr (if cfg.min_notional_policy = "" then "skip"
      else cfg.min_notional_policy) = "auto" := by
    rw [hpol, if_neg (by decide : ¬ ("auto" : String) = "")]
    decide
  have hbumpval : bumpQty r (m * cfg.min_notional_buffer) lp
      = (⌈m * cfg.min_notional_buffer / lp / r.qty_step⌉ : ℚ) * r.qty_step := by
    have hraise : ¬ (0 < r.min_qty
        ∧ (⌈m * cfg.min_notional_buffer / lp / r.qty_step⌉ : ℚ) * r.qty_step < r.min_qty) :=
      fun hc => absurd hc.2 (not_lt.mpr hminq)
    simp only [bumpQty, max_eq_right hp12, if_pos hs, if_neg hraise]
  have hbpos : 0 < bumpQty r (m * cfg.min_notional_buffer) lp := by
    by_contra hb
    push_neg at hb
    have h1 := bumpQty_ge_target r (m * cfg.min_notional_buffer) lp hs hp12 htpos
    nlinarith
  have hstage : minNotionalStage r cfg lp equity intended
      (if 0 < r.min_qty ∧ (⌊qty / r.qty_step⌋ : ℚ) * r.qty_step < r.min_qty
        then r.min_qty else (⌊qty / r.qty_step⌋ : ℚ) * r.qty_step)
      ((if 0 < r.min_qty ∧ (⌊qty / r.qty_step⌋ : ℚ) * r.qty_step < r.min_qty
        then r.min_qty else (⌊qty / r.qty_step⌋ : ℚ) * r.qty_step) * lp)
      = match autoGate cfg m (m * cfg.min_notional_buffer) equity intended with
        | some rsn => Sum.inr rsn
        | none => Sum.inl (bumpQty r (m * cfg.min_notional_buffer) lp,
            bumpQty r (m * cfg.min_notional_buffer) lp * lp) := by
    simp only [minNotionalStage, hmn]
    rw [if_neg (ne_of_gt hm), if_pos ⟨hm, hbelow⟩, if_pos (Or.inr hpolred)]
    simp only [hpolred, if_neg (ne_of_gt hbufpos), max_eq_right hbuf]
    simp
  have hres : adjustQtyByRules (some r) cfg lp qty equity intended
      = match autoGate cfg m (m * cfg.min_notional_buffer) equity intended with
        | some rsn => (0, 0, some rsn)
        | none => ((⌈m * cfg.min_notional_buffer / lp / r.qty_step⌉ : ℚ) * r.qty_step,
            (⌈m * cfg.min_notional_buffer / lp / r.qty_step⌉ : ℚ) * r.qty_step * lp, none) := by
    simp only [adjustQtyByRules, if_neg hbad, if_pos hs, hstage]
    cases hag : autoGate cfg m (m * cfg.min_notional_buffer) equity intended with
    | some rsn => simp
    | none =>
        have hmaxgate : ¬ (0 < r.max_qty ∧ r.max_qty
            < (⌈m * cfg.min_notional_buffer / lp / r.qty_step⌉ : ℚ) * r.qty_step) := by
          rcases hmaxq with h | h
          · exact fun hc => absurd hc.1 (not_lt.mpr h)
          · exact fun hc => absurd hc.2 (not_lt.mpr h)
        have hbpos' : 0 < (⌈m * cfg.min_notional_buffer / lp / r.qty_step⌉ : ℚ) * r.qty_step :=
          hbumpval ▸ hbpos
        simp only [decide_eq_true_eq, hbumpval, if_neg hmaxgate, if_neg (not_le.mpr hbpos')]
  have hAG : autoGate cfg m (m * cfg.min_notional_buffer) equity intended
      = (if intended / cfg.leverage ≤ 0 then some (.minNotionalAutoSkipNoBudget m)
         else if m * cfg.min_notional_buffer / cfg.leverage
              > intended / cfg.leverage * (1 + cfg.auto_bump_max_over_margin_frac)
            ∨ m * cfg.min_notional_buffer / cfg.leverage
              > equity * cfg.auto_bump_max_equity_frac
           then some (.minNotionalAutoSkip m) else none) := by
    simp only [autoGate, if_neg (ne_of_gt hlevpos), max_eq_right hlev,
      if_neg (ne_of_gt hmom), max_eq_right hmom.le,
      if_neg (ne_of_gt hmef), max_eq_right hmef.le, eq_true hmef, true_and]
  by_cases himz : intended / cfg.leverage ≤ 0
  · have hcap : intended / cfg.leverage * (1 + cfg.auto_bump_max_over_margin_frac) ≤ 0 :=
      mul_nonpos_of_nonpos_of_nonneg himz (by linarith)
    have hcond : m * cfg.min_notional_buffer / cfg.leverage
        > intended / cfg.leverage * (1 + cfg.auto_bump_max_over_margin_frac)
        ∨ m * cfg.min_notional_buffer / cfg.leverage
          > equity * cfg.auto_bump_max_equity_frac :=
      Or.inl (lt_of_le_of_lt hcap hreqpos)
    have hfin : adjustQtyByRules (some r) cfg lp qty equity intended
        = (0, 0, some (.minNotionalAutoSkipNoBudget m)) := by
      rw [hres, hAG, if_pos himz]
    refine ⟨iff_of_true hcond (Or.inr hfin), ?_, ?_⟩
    · intro hpos _
      exact absurd himz (not_le.mpr hpos)
    · intro hc
      exact absurd hcond hc
  · by_cases hcond : m * cfg.min_notional_buffer / cfg.leverage
        > intended / cfg.leverage * (1 + cfg.auto_bump_max_over_margin_frac)
        ∨ m * cfg.min_notional_buffer / cfg.leverage
          > equity * cfg.auto_bump_max_equity_frac
    · have hfin : adjustQtyByRules (some r) cfg lp qty equity intended
          = (0, 0, some (.minNotionalAutoSkip m)) := by
        rw [hres, hAG, if_neg himz, if_pos hcond]
      refine ⟨iff_of_true hcond (Or.inl hfin), fun _ _ => hfin, fun hc => absurd hcond hc⟩
    · have hfin : adjustQtyByRules (some r) cfg lp qty equity intended
          = ((⌈m * cfg.min_notional_buffer / lp / r.qty_step⌉ : ℚ) * r.qty_step,
             (⌈m * cfg.min_notional_buffer / lp / r.qty_step⌉ : ℚ) * r.qty_step * lp, none) := by
        rw [hres, hAG, if_neg himz, if_neg hcond]
      refine ⟨iff_of_false hcond ?_, fun _ hc => absurd hc hcond, fun _ => hfin⟩
      rintro (h | h) <;> rw [hfin] at h <;> simp at h

/-- C6: under `min_notional_policy = auto`, when the floored (and
min-qty-raised) notional is below `min_notional = m`, the adjuster with
`target = m · buffer` and `req_margin = target / leverage` rejects with a
`MIN_NOTIONAL<m>_AUTO_SKIP` reason exactly when
`req_margin > intended_margin · (1 + max_over_margin_frac)` or
`req_margin > equity · max_equity_frac`, and otherwise bumps the quantity
to `⌈target / last_price / qty_step⌉ · qty_step`; in particular with
leverage 10, intended notional 100, min notional 120, buffer 1.02,
price 1, step 0.5: `max_over_margin_frac = 0.5` approves the bump
(req 12.24 ≤ cap 15, result qty 122.5) and `max_over_margin_frac = 0.1`
rejects (cap 11). -/
theorem auto_policy_bump_decision (r : SymbolRules) (cfg : SizingConfig)
    (lp qty equity intended m : ℚ)
    (hq : 0 < qty) (hp12 : 1/10^12 ≤ lp) (hs : 0 < r.qty_step)
    (hmn : r.min_notional = some m) (hm : 0 < m)
    (hpol : cfg.min_notional_policy = "auto")
    (hbuf : 1 ≤ cfg.min_notional_buffer)
    (hlev : 1/10^9 ≤ cfg.leverage)
    (hmom : 0 < cfg.auto_bump_max_over_margin_frac)
    (hmef : 0 < cfg.auto_bump_max_equity_frac)
    (hbelow : (if 0 < r.min_qty ∧ (⌊qty / r.qty_step⌋ : ℚ) * r.qty_step < r.min_qty
        then r.min_qty else (⌊qty / r.qty_step⌋ : ℚ) * r.qty_step) * lp < m)
    (hminq : r.min_qty ≤ (⌈m * cfg.min_notional_buffer / lp / r.qty_step⌉ : ℚ) * r.qty_step)
    (hmaxq : r.max_qty ≤ 0
        ∨ (⌈m * cfg.min_notional_buffer / lp / r.qty_step⌉ : ℚ) * r.qty_step ≤ r.max_qty) :
    ((m * cfg.min_notional_buffer / cfg.leverage
          > intended / cfg.leverage * (1 + cfg.auto_bump_max_over_margin_frac)
        ∨ m * cfg.min_notional_buffer / cfg.leverage
          > equity * cfg.auto_bump_max_equity_frac)
      ↔ (adjustQtyByRules (some r) cfg lp qty equity intended
            = (0, 0, some (.minNotionalAutoSkip m))
          ∨ adjustQtyByRules (some r) cfg lp qty equity intended
            = (0, 0, some (.minNotionalAutoSkipNoBudget m))))
    ∧ (¬ (m * cfg.min_notional_buffer / cfg.leverage
            > intended / cfg.leverage * (1 + cfg.auto_bump_max_over_margin_frac)
          ∨ m * cfg.min_notional_buffer / cfg.leverage
            > equity * cfg.auto_bump_max_equity_frac) →
        adjustQtyByRules (some r) cfg lp qty equity intended
          = ((⌈m * cfg.min_notional_buffer / lp / r.qty_step⌉ : ℚ) * r.qty_step,
             (⌈m * cfg.min_notional_buffer / lp / r.qty_step⌉ : ℚ) * r.qty_step * lp,
             none))
    ∧ adjustQtyByRules (some ⟨1/2, 0, 0, some 120⟩) ⟨"auto", 51/50, 10, 1/2, 3/10⟩
        1 (201/2) 1000 100 = (245/2, 245/2, none)
    ∧ adjustQtyByRules (some ⟨1/2, 0, 0, some 120⟩) ⟨"auto", 51/50, 10, 1/10, 3/10⟩
        1 (201/2) 1000 100 = (0, 0, some (.minNotionalAutoSkip 120)) := by
  obtain ⟨hiff, _, hbump⟩ := auto_policy_bump_aux r cfg lp qty equity intended m
    hq hp12 hs hmn hm hpol hbuf hlev hmom hmef hbelow hminq hmaxq
  have hceil : ⌈((120 : ℚ) * (51/50) / 1 / (1/2))⌉ = 245 := by
    rw [Int.ceil_eq_iff] <;> norm_num
  refine ⟨hiff, hbump, ?_, ?_⟩
  · obtain ⟨_, _, hb⟩ := auto_policy_bump_aux ⟨1/2, 0, 0, some 120⟩
      ⟨"auto", 51/50, 10, 1/2, 3/10⟩ 1 (201/2) 1000 100 120
      (by norm_num) (by norm_num) (by norm_num) rfl (by norm_num) rfl
      (by norm_num) (by norm_num) (by norm_num) (by norm_num)
      (by norm_num) (by rw [hceil]; norm_num) (Or.inl (by norm_num))
    rw [hb (by norm_num), hceil]
    norm_num
  · obtain ⟨_, ha, _⟩ := auto_policy_bump_aux ⟨1/2, 0, 0, some 120⟩
      ⟨"auto", 51/50, 10, 1/10, 3/10⟩ 1 (201/2) 1000 100 120
      (by norm_num) (by norm_num) (by norm_num) rfl (by norm_num) rfl
      (by norm_num) (by norm_num) (by norm_num) (by norm_num)
      (by norm_num) (by rw [hceil]; norm_num) (Or.inl (by norm_num))
    exact ha (by norm_num) (Or.inl (by norm_num))

/-- Witness for `auto_policy_bump_decision`: the approved auto-bump
instance of the claim (leverage 10, intended 100, min notional 120,
buffer 1.02, `max_over_margin_frac = 0.5`) yields qty 122.5. -/
theorem auto_policy_bump_decision_witness :
    adjustQtyByRules (some ⟨1/2, 0, 0, some 120⟩) ⟨"auto", 51/50, 10, 1/2, 3/10⟩
      1 (201/2) 1000 100 = (245/2, 245/2, none) := by
  have hceil : ⌈((120 : ℚ) * (51/50) / 1 / (1/2))⌉ = 245 := by
    rw [Int.ceil_eq_iff] <;> norm_num
  exact (auto_policy_bump_decision ⟨1/2, 0, 0, some 120⟩
    ⟨"auto", 51/50, 10, 1/2, 3/10⟩ 1 (201/2) 1000 100 120
    (by norm_num) (by norm_num) (by norm_num) rfl (by norm_num) rfl
    (by norm_num) (by norm_num) (by norm_num) (by norm_num)
    (by norm_num) (by rw [hceil]; norm_num) (Or.inl (by norm_num))).2.2.1

end QuantBot
